import Mathlib

/-!
Verification development for the `feed_transformation` repository: a thin
utility layer over a columnar-dataframe engine (polars).  The two source
variants (a functional module and a class-based `FeedTransformation`) are
shallowly embedded below.  Datasets are modelled as an ordered header of
column names together with a list of rows; every cell is a `Value`.  The
dataframe-engine primitives used by the repository (`select`, `with_columns`
with a `struct` expression, `group_by`/`agg`, left `join`, `drop`,
`when/then/otherwise`, `str.replace`) are modelled explicitly; fallible
engine calls return `Except FtError`.
-/

/-- A cell value of the dataframe engine: strings, integers, nulls,
structs (records with named fields) and lists. -/
inductive Value where
  | str : String → Value
  | int : Int → Value
  | null : Value
  | struct : List (String × Value) → Value
  | list : List Value → Value
deriving Repr

mutual

/-- Boolean equality on `Value` (the derive handler does not support this
nested inductive, so it is written out). -/
def beqV : Value → Value → Bool
  | .str a, .str b => a == b
  | .int a, .int b => a == b
  | .null, .null => true
  | .struct fs, .struct gs => beqF fs gs
  | .list xs, .list ys => beqL xs ys
  | _, _ => false

/-- Boolean equality on lists of values. -/
def beqL : List Value → List Value → Bool
  | [], [] => true
  | x :: xs, y :: ys => beqV x y && beqL xs ys
  | _, _ => false

/-- Boolean equality on struct fields. -/
def beqF : List (String × Value) → List (String × Value) → Bool
  | [], [] => true
  | (n, x) :: xs, (m, y) :: ys => n == m && beqV x y && beqF xs ys
  | _, _ => false

end

mutual

theorem beqV_iff : ∀ a b, beqV a b = true ↔ a = b
  | .str a, .str b => by simp [beqV]
  | .int a, .int b => by simp [beqV]
  | .null, .null => by simp [beqV]
  | .struct fs, .struct gs => by simp [beqV, beqF_iff fs gs]
  | .list xs, .list ys => by simp [beqV, beqL_iff xs ys]
  | .str a, .int b => by simp [beqV]
  | .str a, .null => by simp [beqV]
  | .str a, .struct g => by simp [beqV]
  | .str a, .list g => by simp [beqV]
  | .int a, .str b => by simp [beqV]
  | .int a, .null => by simp [beqV]
  | .int a, .struct g => by simp [beqV]
  | .int a, .list g => by simp [beqV]
  | .null, .str b => by simp [beqV]
  | .null, .int b => by simp [beqV]
  | .null, .struct g => by simp [beqV]
  | .null, .list g => by simp [beqV]
  | .struct f, .str b => by simp [beqV]
  | .struct f, .int b => by simp [beqV]
  | .struct f, .null => by simp [beqV]
  | .struct f, .list g => by simp [beqV]
  | .list f, .str b => by simp [beqV]
  | .list f, .int b => by simp [beqV]
  | .list f, .null => by simp [beqV]
  | .list f, .struct g => by simp [beqV]

theorem beqL_iff : ∀ xs ys, beqL xs ys = true ↔ xs = ys
  | [], [] => by simp [beqL]
  | x :: xs, y :: ys => by simp [beqL, beqV_iff x y, beqL_iff xs ys]
  | [], _ :: _ => by simp [beqL]
  | _ :: _, [] => by simp [beqL]

theorem beqF_iff : ∀ xs ys, beqF xs ys = true ↔ xs = ys
  | [], [] => by simp [beqF]
  | (n, x) :: xs, (m, y) :: ys => by
    simp [beqF, beqV_iff x y, beqF_iff xs ys, and_assoc]
  | [], _ :: _ => by simp [beqF]
  | _ :: _, [] => by simp [beqF]

end

instance : DecidableEq Value := fun a b => decidable_of_iff (beqV a b = true) (beqV_iff a b)

/-- A dataset (polars `DataFrame`): an ordered header of column names and a
list of rows; row `r` holds the value of column `header[i]` at position `i`. -/
structure Dataset where
  header : List String
  rows : List (List Value)
deriving Repr, DecidableEq

/-- Well-formedness: every row has exactly one cell per header entry. -/
def Dataset.WF (d : Dataset) : Prop :=
  ∀ r ∈ d.rows, r.length = d.header.length

/-- Position of column `c` in a header (length of the header if absent). -/
def colIdx (header : List String) (c : String) : Nat :=
  match header with
  | [] => 0
  | h :: t => if h = c then 0 else colIdx t c + 1

/-- The cell of row `r` in column `c`, given the header `r` is aligned with. -/
def getCell (header : List String) (r : List Value) (c : String) : Value :=
  r.getD (colIdx header c) Value.null

theorem colIdx_lt_length {header : List String} {c : String} (h : c ∈ header) :
    colIdx header c < header.length := by
  induction header with
  | nil => cases h
  | cons a t ih =>
    by_cases hac : a = c
    · simp [colIdx, hac]
    · rcases List.mem_cons.mp h with h | h
      · exact absurd h.symm hac
      · simpa [colIdx, hac, Nat.succ_lt_succ_iff] using ih h

theorem colIdx_append_of_mem {l1 : List String} (l2 : List String) {c : String}
    (h : c ∈ l1) : colIdx (l1 ++ l2) c = colIdx l1 c := by
  induction l1 with
  | nil => cases h
  | cons a t ih =>
    by_cases hac : a = c
    · simp [colIdx, hac]
    · rcases List.mem_cons.mp h with h | h
      · exact absurd h.symm hac
      · simp [colIdx, hac, ih h]

theorem colIdx_append_of_not_mem {l1 : List String} (l2 : List String) {c : String}
    (h : c ∉ l1) : colIdx (l1 ++ l2) c = l1.length + colIdx l2 c := by
  induction l1 with
  | nil => simp [colIdx]
  | cons a t ih =>
    have hac : a ≠ c := fun he => h (he ▸ List.mem_cons_self a t)
    have ht : c ∉ t := fun hm => h (List.mem_cons_of_mem a hm)
    simp [colIdx, hac, ih ht]
    omega

theorem getCell_append_of_mem {header : List String} (ext : List String)
    {r : List Value} (tail : List Value) {c : String}
    (hc : c ∈ header) (hlen : r.length = header.length) :
    getCell (header ++ ext) (r ++ tail) c = getCell header r c := by
  unfold getCell
  rw [colIdx_append_of_mem ext hc]
  exact List.getD_append r tail Value.null _ (hlen ▸ colIdx_lt_length hc)

theorem getCell_append_single {header : List String} {r : List Value} {c : String}
    (v : Value) (hc : c ∉ header) (hlen : r.length = header.length) :
    getCell (header ++ [c]) (r ++ [v]) c = v := by
  unfold getCell
  rw [colIdx_append_of_not_mem [c] hc]
  simp [colIdx, List.getD, List.getElem?_append_right, hlen]

/-- With a duplicate-free header that exactly matches the row, reading every
column back yields the row itself. -/
theorem map_getCell_self {header : List String} {r : List Value}
    (hnd : header.Nodup) (hlen : r.length = header.length) :
    header.map (fun c => getCell header r c) = r := by
  induction header generalizing r with
  | nil => simpa using (List.length_eq_zero.mp (by simpa using hlen))
  | cons a t ih =>
    match r with
    | [] => simp at hlen
    | v :: vs =>
      have hat : a ∉ t := (List.nodup_cons.mp hnd).1
      have hnt : t.Nodup := (List.nodup_cons.mp hnd).2
      have hl : vs.length = t.length := by simpa using hlen
      simp only [List.map_cons]
      have hhead : getCell (a :: t) (v :: vs) a = v := by simp [getCell, colIdx]
      have htail : t.map (fun c => getCell (a :: t) (v :: vs) c) =
          t.map (fun c => getCell t vs c) := by
        apply List.map_congr_left
        intro c hc
        have hac : a ≠ c := fun he => hat (he ▸ hc)
        simp [getCell, colIdx, hac, List.getD]
      rw [hhead, htail, ih hnt hl]


/-- One step of the engine's `group_by` bookkeeping: append row `r` to the
group keyed `k`, creating a new group at the end when the key is new. -/
def insertGrouped (k : List Value) (r : List Value) :
    List (List Value × List (List Value)) → List (List Value × List (List Value))
  | [] => [(k, [r])]
  | (q, rs) :: t => if q = k then (q, rs ++ [r]) :: t else (q, rs) :: insertGrouped k r t

/-- The engine's `group_by`: partition `rows` by `key`.  Groups are produced
in first-seen key order; rows inside a group keep their original order.
(`maintain_order=True` guarantees exactly this group order; without it the
engine may emit the groups in any order, of which this is one.) -/
def groupPairs (key : List Value → List Value) (rows : List (List Value)) :
    List (List Value × List (List Value)) :=
  rows.foldl (fun gs r => insertGrouped (key r) r gs) []

/-- The rows collected for key `k` (empty when the key is absent). -/
def lookupGroup (gs : List (List Value × List (List Value))) (k : List Value) :
    List (List Value) :=
  ((gs.find? (fun p => decide (p.1 = k))).map Prod.snd).getD []

/-- Accumulator step for first-seen deduplication. -/
def fsStep {α : Type} [DecidableEq α] (acc : List α) (k : α) : List α :=
  if k ∈ acc then acc else acc ++ [k]

/-- Distinct elements of a list in order of first appearance. -/
def firstSeen {α : Type} [DecidableEq α] (l : List α) : List α :=
  l.foldl fsStep []

theorem lookupGroup_cons_self (k : List Value) (rs : List (List Value))
    (t : List (List Value × List (List Value))) :
    lookupGroup ((k, rs) :: t) k = rs := by
  unfold lookupGroup
  rw [List.find?_cons_of_pos _ (by simp)]
  rfl

theorem lookupGroup_cons_ne (p : List Value × List (List Value))
    (t : List (List Value × List (List Value))) {k : List Value} (h : ¬ p.1 = k) :
    lookupGroup (p :: t) k = lookupGroup t k := by
  unfold lookupGroup
  rw [List.find?_cons_of_neg _ (by simpa using h)]

theorem insertGrouped_cons_eq (k r : List Value) (rs : List (List Value))
    (t : List (List Value × List (List Value))) :
    insertGrouped k r ((k, rs) :: t) = (k, rs ++ [r]) :: t := by
  simp [insertGrouped]

theorem insertGrouped_cons_ne (k r a : List Value) (rs : List (List Value))
    (t : List (List Value × List (List Value))) (h : ¬ a = k) :
    insertGrouped k r ((a, rs) :: t) = (a, rs) :: insertGrouped k r t := by
  simp [insertGrouped, h]

theorem lookupGroup_insertGrouped (q r : List Value)
    (gs : List (List Value × List (List Value))) (k : List Value) :
    lookupGroup (insertGrouped q r gs) k =
      lookupGroup gs k ++ if k = q then [r] else [] := by
  induction gs with
  | nil =>
    by_cases hk : k = q
    · rw [hk]
      show lookupGroup ((q, [r]) :: []) q = lookupGroup [] q ++ if q = q then [r] else []
      rw [lookupGroup_cons_self, if_pos rfl]
      rfl
    · have hq : ¬ q = k := fun h => hk h.symm
      show lookupGroup ((q, [r]) :: []) k = lookupGroup [] k ++ if k = q then [r] else []
      rw [lookupGroup_cons_ne (q, [r]) [] hq, if_neg hk]
      rfl
  | cons p t ih =>
    obtain ⟨a, rs⟩ := p
    by_cases haq : a = q
    · rw [haq, insertGrouped_cons_eq]
      by_cases hkq : k = q
      · rw [hkq]
        rw [lookupGroup_cons_self, lookupGroup_cons_self, if_pos rfl]
      · have hq : ¬ q = k := fun h => hkq h.symm
        rw [lookupGroup_cons_ne (q, rs ++ [r]) t hq, lookupGroup_cons_ne (q, rs) t hq,
          if_neg hkq]
        simp
    · rw [insertGrouped_cons_ne q r a rs t haq]
      by_cases hak : a = k
      · rw [hak, lookupGroup_cons_self, lookupGroup_cons_self]
        have hkq : ¬ k = q := fun h => haq (hak.symm ▸ h ▸ rfl)
        rw [if_neg hkq]
        simp
      · rw [lookupGroup_cons_ne (a, rs) _ hak, lookupGroup_cons_ne (a, rs) t hak]
        exact ih

theorem fst_insertGrouped (q r : List Value)
    (gs : List (List Value × List (List Value))) :
    (insertGrouped q r gs).map Prod.fst = fsStep (gs.map Prod.fst) q := by
  induction gs with
  | nil => simp [insertGrouped, fsStep]
  | cons p t ih =>
    obtain ⟨a, rs⟩ := p
    by_cases haq : a = q
    · rw [haq, insertGrouped_cons_eq]
      simp only [fsStep, List.map_cons]
      rw [if_pos (List.mem_cons_self q _)]
    · rw [insertGrouped_cons_ne q r a rs t haq]
      simp only [List.map_cons, ih, fsStep]
      by_cases hqt : q ∈ t.map Prod.fst
      · rw [if_pos hqt, if_pos (List.mem_cons_of_mem a hqt)]
      · rw [if_neg hqt, if_neg (by
          intro h
          rcases List.mem_cons.mp h with h | h
          · exact haq h.symm
          · exact hqt h)]
        simp

theorem lookupGroup_foldl (key : List Value → List Value) :
    ∀ (rows : List (List Value)) (gs : List (List Value × List (List Value)))
      (k : List Value),
    lookupGroup (rows.foldl (fun gs r => insertGrouped (key r) r gs) gs) k =
      lookupGroup gs k ++ rows.filter (fun r => decide (key r = k)) := by
  intro rows
  induction rows with
  | nil => simp
  | cons r rest ih =>
    intro gs k
    simp only [List.foldl_cons, List.filter_cons]
    rw [ih, lookupGroup_insertGrouped]
    by_cases hk : key r = k
    · rw [if_pos hk.symm, if_pos (by simpa using hk)]
      simp [List.append_assoc]
    · rw [if_neg (fun h => hk h.symm), if_neg (by simpa using hk)]
      simp

theorem lookupGroup_groupPairs (key : List Value → List Value)
    (rows : List (List Value)) (k : List Value) :
    lookupGroup (groupPairs key rows) k = rows.filter (fun r => decide (key r = k)) := by
  unfold groupPairs
  rw [lookupGroup_foldl]
  simp [lookupGroup]

theorem fst_foldl_insertGrouped (key : List Value → List Value) :
    ∀ (rows : List (List Value)) (gs : List (List Value × List (List Value))),
    ((rows.foldl (fun gs r => insertGrouped (key r) r gs) gs).map Prod.fst) =
      (rows.map key).foldl fsStep (gs.map Prod.fst) := by
  intro rows
  induction rows with
  | nil => simp
  | cons r rest ih =>
    intro gs
    simp only [List.foldl_cons, List.map_cons]
    rw [ih, fst_insertGrouped]

theorem fst_groupPairs (key : List Value → List Value) (rows : List (List Value)) :
    (groupPairs key rows).map Prod.fst = firstSeen (rows.map key) := by
  unfold groupPairs firstSeen
  rw [fst_foldl_insertGrouped]
  rfl

theorem mem_firstSeen_foldl {α : Type} [DecidableEq α] :
    ∀ (l acc : List α) (a : α), a ∈ l.foldl fsStep acc ↔ a ∈ acc ∨ a ∈ l := by
  intro l
  induction l with
  | nil => simp
  | cons x xs ih =>
    intro acc a
    simp only [List.foldl_cons]
    rw [ih]
    unfold fsStep
    by_cases hx : x ∈ acc
    · rw [if_pos hx]
      constructor
      · rintro (h | h)
        · exact Or.inl h
        · exact Or.inr (List.mem_cons_of_mem x h)
      · rintro (h | h)
        · exact Or.inl h
        · rcases List.mem_cons.mp h with h | h
          · exact Or.inl (h ▸ hx)
          · exact Or.inr h
    · rw [if_neg hx]
      constructor
      · rintro (h | h)
        · rcases List.mem_append.mp h with h | h
          · exact Or.inl h
          · simp only [List.mem_singleton] at h
            exact Or.inr (h ▸ List.mem_cons_self x xs)
        · exact Or.inr (List.mem_cons_of_mem x h)
      · rintro (h | h)
        · exact Or.inl (List.mem_append.mpr (Or.inl h))
        · rcases List.mem_cons.mp h with h | h
          · exact Or.inl (List.mem_append.mpr (Or.inr (by simp [h])))
          · exact Or.inr h

theorem nodup_firstSeen_foldl {α : Type} [DecidableEq α] :
    ∀ (l acc : List α), acc.Nodup → (l.foldl fsStep acc).Nodup := by
  intro l
  induction l with
  | nil => intro acc h; simpa using h
  | cons x xs ih =>
    intro acc h
    simp only [List.foldl_cons]
    unfold fsStep
    by_cases hx : x ∈ acc
    · rw [if_pos hx]
      exact ih acc h
    · rw [if_neg hx]
      refine ih (acc ++ [x]) ?_
      simp [List.nodup_append, h, hx]

theorem mem_firstSeen {α : Type} [DecidableEq α] (l : List α) (a : α) :
    a ∈ firstSeen l ↔ a ∈ l := by
  unfold firstSeen
  rw [mem_firstSeen_foldl]
  simp

theorem nodup_firstSeen {α : Type} [DecidableEq α] (l : List α) :
    (firstSeen l).Nodup :=
  nodup_firstSeen_foldl l [] List.nodup_nil

theorem map_groupPairs_eq {β : Type} (gs : List (List Value × List (List Value)))
    (f : List Value × List (List Value) → β)
    (hnd : (gs.map Prod.fst).Nodup) :
    gs.map f = (gs.map Prod.fst).map (fun k => f (k, lookupGroup gs k)) := by
  induction gs with
  | nil => rfl
  | cons p t ih =>
    obtain ⟨hp, ht⟩ := List.nodup_cons.mp hnd
    simp only [List.map_cons]
    have hhead : lookupGroup (p :: t) p.1 = p.2 := by
      obtain ⟨a, rs⟩ := p
      exact lookupGroup_cons_self a rs t
    have htail : (t.map Prod.fst).map (fun k => f (k, lookupGroup (p :: t) k)) =
        (t.map Prod.fst).map (fun k => f (k, lookupGroup t k)) := by
      apply List.map_congr_left
      intro k hk
      have hne : ¬ p.1 = k := fun he => hp (he ▸ hk)
      rw [lookupGroup_cons_ne p t hne]
    rw [hhead, htail, ← ih ht]

theorem filter_groupPairs_singleton (gs : List (List Value × List (List Value)))
    (k : List Value) (hnd : (gs.map Prod.fst).Nodup) (hk : k ∈ gs.map Prod.fst) :
    gs.filter (fun p => decide (p.1 = k)) = [(k, lookupGroup gs k)] := by
  induction gs with
  | nil => cases hk
  | cons p t ih =>
    obtain ⟨hp, ht⟩ := List.nodup_cons.mp hnd
    rcases List.mem_cons.mp hk with hk1 | hk1
    · have hpk : p.1 = k := hk1.symm
      have hnone : t.filter (fun p => decide (p.1 = k)) = [] := by
        apply List.filter_eq_nil_iff.mpr
        intro q hq hdec
        have hqk : q.1 = k := of_decide_eq_true hdec
        exact hp (hpk ▸ hqk ▸ List.mem_map_of_mem Prod.fst hq)
      have hlook : lookupGroup (p :: t) k = p.2 := by
        rw [← hpk]
        obtain ⟨a, rs⟩ := p
        exact lookupGroup_cons_self a rs t
      rw [List.filter_cons, if_pos (by simpa using hpk), hnone, hlook]
      have hpe : p = (k, p.2) := by
        obtain ⟨a, rs⟩ := p
        simp only at hpk
        rw [hpk]
      rw [← hpe]
    · have hne : ¬ p.1 = k := fun he => hp (he ▸ hk1)
      rw [List.filter_cons, if_neg (by simpa using hne), lookupGroup_cons_ne p t hne]
      exact ih ht hk1

/-- Errors of the dataframe engine surfaced by the utility layer. -/
inductive FtError where
  | columnNotFound
  | schemaFieldNotFound
  | duplicateColumn
  | valueError
  | typeError
deriving DecidableEq, Repr

/-- The `pl.struct(cols)` expression: a record with one field per listed
column, holding the row's value of that column. -/
def structVal (header : List String) (cols : List String) (r : List Value) : Value :=
  Value.struct (cols.map (fun c => (c, getCell header r c)))

/-- `with_columns(expr.alias(name))`: replace column `name` in place when it
already exists, otherwise append it on the right; `f` computes the new cell
from the (original) row. -/
def withColumnRows (d : Dataset) (name : String) (f : List Value → Value) : Dataset :=
  if name ∈ d.header then
    { header := d.header,
      rows := d.rows.map (fun r => r.set (colIdx d.header name) (f r)) }
  else
    { header := d.header ++ [name], rows := d.rows.map (fun r => r ++ [f r]) }

/-- `drop(c)`: remove column `c`; the engine raises `ColumnNotFoundError`
when the column is absent. -/
def dropColumn (d : Dataset) (c : String) : Except FtError Dataset :=
  if c ∈ d.header then
    .ok { header := d.header.eraseIdx (colIdx d.header c),
          rows := d.rows.map (fun r => r.eraseIdx (colIdx d.header c)) }
  else .error .columnNotFound

/-- `select(pl.exclude(e))`: drop column `e` when present, keep the dataset
unchanged otherwise (`pl.exclude` ignores absent names). -/
def selectExclude (d : Dataset) (e : String) : Dataset :=
  if e ∈ d.header then
    { header := d.header.eraseIdx (colIdx d.header e),
      rows := d.rows.map (fun r => r.eraseIdx (colIdx d.header e)) }
  else d

/-- `left.join(right, on=on_col, how="left")`: every left row is paired with
each matching right row; the right side's non-key columns are appended,
renamed with a `_right` suffix when they collide with a left column; an
unmatched left row is kept once, padded with nulls.  Null join keys do not
match (the engine's `join_nulls=False` default), so a left row with a null
key value is always unmatched.  Left row order is preserved. -/
def joinLeft (left right : Dataset) (on_col : List String) : Dataset :=
  let extra := right.header.filter (fun c => decide (c ∉ on_col))
  let joinedNames := extra.map (fun c => if c ∈ left.header then c ++ "_right" else c)
  { header := left.header ++ joinedNames,
    rows := left.rows.flatMap (fun r =>
      let ms := if Value.null ∈ on_col.map (getCell left.header r) then []
        else right.rows.filter (fun m =>
          decide (on_col.map (getCell right.header m) = on_col.map (getCell left.header r)))
      if ms.isEmpty then [r ++ extra.map (fun _ => Value.null)]
      else ms.map (fun m => r ++ extra.map (fun c => getCell right.header m c))) }

/-- `rename_cols(feed, **kwargs)` delegating to polars `DataFrame.rename`:
renames columns per an old-to-new mapping.  Per the engine's documented
contract, a source name absent from the schema raises
`SchemaFieldNotFoundError` (not `ColumnNotFoundError`). -/
def rename_cols (feed : Dataset) (mapping : List (String × String)) :
    Except FtError Dataset :=
  if ∀ p ∈ mapping, p.1 ∈ feed.header then
    .ok { header := feed.header.map (fun c =>
            match mapping.find? (fun p => p.1 == c) with
            | some p => p.2
            | none => c),
          rows := feed.rows }
  else .error .schemaFieldNotFound

/-- `create_metadata(feed, cols, meta_name, exclude)` (functional variant):
validates `cols` (raising `ColumnNotFoundError` when one is missing), warns
when `meta_name` already exists, packs `cols` into a struct column named
`meta_name` via `with_columns`, and finally selects everything but the
`exclude` column when one is given.  A duplicated name in `cols` makes the
engine's `struct` constructor fail. -/
def create_metadata (feed : Dataset) (cols : List String)
    (meta_name : String := "metadata") (exclude : Option String := none) :
    Except FtError Dataset :=
  if ¬ (∀ c ∈ cols, c ∈ feed.header) then .error .columnNotFound
  else if ¬ cols.Nodup then .error .duplicateColumn
  else
    let fed := withColumnRows feed meta_name (structVal feed.header cols)
    .ok (match exclude with
         | some e => selectExclude fed e
         | none => fed)

/-- `all_combinations_metadata(feed, col, over_col)` (functional variant):
validates `col`, then applies
`pl.col(col).over(over_col, mapping_strategy="join")`: every cell of `col`
is replaced by the list of the `col` values of all rows sharing its
`over_col` key (in row order); a missing `over_col` column makes the engine
raise `ColumnNotFoundError`. -/
def all_combinations_metadata (feed : Dataset) (col : String)
    (over_col : List String) : Except FtError Dataset :=
  if ¬ col ∈ feed.header then .error .columnNotFound
  else if ¬ (∀ c ∈ over_col, c ∈ feed.header) then .error .columnNotFound
  else
    let key := fun r => over_col.map (getCell feed.header r)
    .ok { header := feed.header,
          rows := feed.rows.map (fun r =>
            r.set (colIdx feed.header col)
              (Value.list ((feed.rows.filter (fun q => decide (key q = key r))).map
                (fun q => getCell feed.header q col)))) }

/-- `group_metadata(feed, group_cols, metadata, order)` (functional variant):
validates `group_cols`, then groups by them, keeps the first value of every
other non-metadata column and aggregates the metadata column's values into a
list; a missing `metadata` column makes the engine's `agg` raise
`ColumnNotFoundError`.  See `groupPairs` for how `order` relates to the
modelled group order. -/
def group_metadata (feed : Dataset) (group_cols : List String)
    (metadata : String := "metadata") (order : Bool := false) :
    Except FtError Dataset :=
  if ¬ (∀ c ∈ group_cols, c ∈ feed.header) then .error .columnNotFound
  else if ¬ metadata ∈ feed.header then .error .columnNotFound
  else
    let cols := feed.header.filter (fun c => decide (c ∉ group_cols) && decide (c ≠ metadata))
    let key := fun r => group_cols.map (getCell feed.header r)
    let gps := groupPairs key feed.rows
    .ok { header := group_cols ++ cols ++ [metadata],
          rows := gps.map (fun p =>
            p.1 ++ cols.map (fun c => getCell feed.header (p.2.headD []) c) ++
              [Value.list (p.2.map (fun r => getCell feed.header r metadata))]) }

/-- First-match regex replacement: `matchFirst pat s` is the engine's regex
search, returning char position and length of the leftmost match of `pat` in
`s`, or none.  The regex engine itself is an external dependency of the
repository, so it is a parameter of the model. -/
def strReplaceFirst (matchFirst : String → String → Option (Nat × Nat))
    (pat repl s : String) : String :=
  match matchFirst pat s with
  | none => s
  | some (i, n) => ⟨s.data.take i ++ repl.data ++ s.data.drop (i + n)⟩

/-- Whether a cell is a string. -/
def isStrCell : Value → Bool
  | .str _ => true
  | _ => false

/-- `rename_column_value(feed, col, old, new, regex, ow)`: validates `col`;
when `ow` is not given it defaults to `old` with a warning (returned as the
Bool).  With `regex=True` the engine's `str.replace` rewrites the first
regex match inside every cell of the (string) column; with `regex=False` the
column is rewritten by `when(col == old).then(new).otherwise(ow)`: cells
equal to `old` become `new`, every other cell becomes `ow`. -/
def rename_column_value (matchFirst : String → String → Option (Nat × Nat))
    (feed : Dataset) (col old new : String) (regex : Bool := false)
    (ow : Option String := none) : Except FtError (Dataset × Bool) :=
  if ¬ col ∈ feed.header then .error .columnNotFound
  else
    let warned := ow.isNone
    let owv := ow.getD old
    if regex then
      if ∀ r ∈ feed.rows, isStrCell (getCell feed.header r col) then
        .ok ({ header := feed.header,
               rows := feed.rows.map (fun r =>
                 r.set (colIdx feed.header col)
                   (match getCell feed.header r col with
                    | .str s => Value.str (strReplaceFirst matchFirst old new s)
                    | v => v)) }, warned)
      else .error .typeError
    else
      .ok ({ header := feed.header,
             rows := feed.rows.map (fun r =>
               r.set (colIdx feed.header col)
                 (if getCell feed.header r col = Value.str old then Value.str new
                  else Value.str owv)) }, warned)

/-- Python `str` whitespace (ASCII fragment), as stripped by `str.strip()`. -/
def isPyWhitespace (c : Char) : Bool :=
  c = ' ' || c = '\t' || c = '\n' || c = '\r' || c = '\x0b' || c = '\x0c'

/-- Python `str.lower()` on one character (ASCII fragment of the Unicode
mapping, which covers the letter case the repository manipulates). -/
def toLowerChar (c : Char) : Char :=
  if 65 ≤ c.toNat ∧ c.toNat ≤ 90 then Char.ofNat (c.toNat + 32) else c

/-- Python `str.replace(" ", "_")` on one character. -/
def replaceSpaceChar (c : Char) : Char :=
  if c = ' ' then '_' else c

/-- Python `str.strip()`: drop leading and trailing whitespace. -/
def stripChars (l : List Char) : List Char :=
  ((l.dropWhile isPyWhitespace).reverse.dropWhile isPyWhitespace).reverse

/-- The column-name transformation of `format_cols`:
`col.strip().lower().replace(" ", "_")`. -/
def normalizeName (s : String) : String :=
  ⟨((stripChars s.data).map toLowerChar).map replaceSpaceChar⟩

/-- `format_cols(feed)`: rename every column with `normalizeName` via
`select(pl.all().map_alias(...))`; the engine rejects the result when two
normalized names collide. -/
def format_cols (feed : Dataset) : Except FtError Dataset :=
  let hd := feed.header.map normalizeName
  if hd.Nodup then .ok { header := hd, rows := feed.rows }
  else .error .duplicateColumn

theorem toNat_ofNat_of_valid (n : Nat) (h : n < 55296) : (Char.ofNat n).toNat = n := by
  have hv : n.isValidChar := Or.inl h
  simp only [Char.ofNat, hv, dif_pos]
  rfl

theorem ws_toNat_le (c : Char) (h : isPyWhitespace c = true) : c.toNat ≤ 32 := by
  unfold isPyWhitespace at h
  simp only [Bool.or_eq_true, decide_eq_true_eq] at h
  rcases h with ((((h | h) | h) | h) | h) | h <;> subst h <;> decide

theorem not_ws_of_toNat_ge (c : Char) (h : 33 ≤ c.toNat) : isPyWhitespace c = false := by
  cases hw : isPyWhitespace c
  · rfl
  · have := ws_toNat_le c hw
    omega

theorem toLowerChar_idem (c : Char) : toLowerChar (toLowerChar c) = toLowerChar c := by
  by_cases h : 65 ≤ c.toNat ∧ c.toNat ≤ 90
  · have h1 : toLowerChar c = Char.ofNat (c.toNat + 32) := by
      unfold toLowerChar
      rw [if_pos h]
    have ht : (Char.ofNat (c.toNat + 32)).toNat = c.toNat + 32 :=
      toNat_ofNat_of_valid _ (by omega)
    rw [h1]
    unfold toLowerChar
    rw [if_neg (by rw [ht]; omega)]
  · have h2 : toLowerChar c = c := by
      unfold toLowerChar
      rw [if_neg h]
    rw [h2]
    exact h2

theorem toLowerChar_ws (c : Char) : isPyWhitespace (toLowerChar c) = isPyWhitespace c := by
  by_cases h : 65 ≤ c.toNat ∧ c.toNat ≤ 90
  · have h1 : toLowerChar c = Char.ofNat (c.toNat + 32) := by
      unfold toLowerChar
      rw [if_pos h]
    have ht : (Char.ofNat (c.toNat + 32)).toNat = c.toNat + 32 :=
      toNat_ofNat_of_valid _ (by omega)
    rw [h1, not_ws_of_toNat_ge _ (by rw [ht]; omega), not_ws_of_toNat_ge c (by omega)]
  · have h2 : toLowerChar c = c := by
      unfold toLowerChar
      rw [if_neg h]
    rw [h2]

theorem replaceSpaceChar_ne_space (c : Char) : ¬ replaceSpaceChar c = ' ' := by
  unfold replaceSpaceChar
  by_cases h : c = ' '
  · rw [if_pos h]
    decide
  · rw [if_neg h]
    exact h

theorem replaceSpaceChar_idem (c : Char) :
    replaceSpaceChar (replaceSpaceChar c) = replaceSpaceChar c := by
  unfold replaceSpaceChar
  by_cases h : c = ' '
  · rw [if_pos h]
    decide
  · rw [if_neg h, if_neg h]

theorem toLowerChar_replaceSpaceChar_lower (c : Char) :
    toLowerChar (replaceSpaceChar (toLowerChar c)) = replaceSpaceChar (toLowerChar c) := by
  unfold replaceSpaceChar
  by_cases h : toLowerChar c = ' '
  · rw [if_pos h]
    decide
  · rw [if_neg h]
    exact toLowerChar_idem c

theorem replaceSpaceChar_ws (c : Char) :
    isPyWhitespace (replaceSpaceChar c) = (isPyWhitespace c && !(c = ' ' : Bool)) := by
  unfold replaceSpaceChar
  by_cases h : c = ' '
  · rw [if_pos h, h]
    decide
  · rw [if_neg h]
    simp [h]

theorem dropWhile_map_of_pred {p : Char → Bool} {f : Char → Char}
    (hf : ∀ c, p (f c) = p c) :
    ∀ l : List Char, (l.map f).dropWhile p = (l.dropWhile p).map f := by
  intro l
  induction l with
  | nil => rfl
  | cons x xs ih =>
    simp only [List.map_cons, List.dropWhile_cons, hf x]
    by_cases hx : p x = true
    · simp [hx, ih]
    · simp only [Bool.not_eq_true] at hx
      simp [hx]

/-- A list with no leading and no trailing whitespace. -/
def NoEdgeWs (l : List Char) : Prop :=
  l.dropWhile isPyWhitespace = l ∧ l.reverse.dropWhile isPyWhitespace = l.reverse

theorem stripChars_of_noEdgeWs {l : List Char} (h : NoEdgeWs l) : stripChars l = l := by
  unfold stripChars
  rw [h.1, h.2, List.reverse_reverse]

theorem dropWhile_idem (p : Char → Bool) (l : List Char) :
    (l.dropWhile p).dropWhile p = l.dropWhile p := by
  induction l with
  | nil => rfl
  | cons x xs ih =>
    by_cases hx : p x = true
    · simpa [List.dropWhile_cons, hx] using ih
    · simp only [Bool.not_eq_true] at hx
      simp [List.dropWhile_cons, hx]

theorem getLast?_dropWhile (p : Char → Bool) (l : List Char) :
    l.dropWhile p = [] ∨ (l.dropWhile p).getLast? = l.getLast? := by
  cases hs : (l.dropWhile p).getLast? with
  | none => exact Or.inl (List.getLast?_eq_none_iff.mp hs)
  | some x =>
    refine Or.inr ?_
    obtain ⟨t, ht⟩ := List.dropWhile_suffix (l := l) p
    have hll : l.getLast? = (t ++ l.dropWhile p).getLast? := by rw [ht]
    rw [hll, List.getLast?_append, hs]
    simp

theorem head?_dropWhile_false (p : Char → Bool) :
    ∀ (l : List Char) (x : Char), (l.dropWhile p).head? = some x → p x = false := by
  intro l
  induction l with
  | nil => intro x h; cases h
  | cons a t ih =>
    intro x h
    cases hpa : p a with
    | true =>
      rw [List.dropWhile_cons, if_pos hpa] at h
      exact ih x h
    | false =>
      rw [List.dropWhile_cons, hpa, if_neg (by decide)] at h
      simp only [List.head?_cons, Option.some.injEq] at h
      exact h ▸ hpa

theorem dropWhile_eq_self_of_head (p : Char → Bool) (l : List Char)
    (h : ∀ x, l.head? = some x → p x = false) : l.dropWhile p = l := by
  cases l with
  | nil => rfl
  | cons a t =>
    rw [List.dropWhile_cons, h a rfl, if_neg (by decide)]

theorem noEdgeWs_stripChars (l : List Char) : NoEdgeWs (stripChars l) := by
  unfold NoEdgeWs stripChars
  rw [List.reverse_reverse]
  constructor
  · apply dropWhile_eq_self_of_head
    intro x hx
    rw [List.head?_reverse] at hx
    rcases getLast?_dropWhile isPyWhitespace (l.dropWhile isPyWhitespace).reverse with h | h
    · rw [h] at hx
      cases hx
    · rw [h, List.getLast?_reverse] at hx
      exact head?_dropWhile_false isPyWhitespace l x hx
  · exact dropWhile_idem isPyWhitespace _

theorem noEdgeWs_map {f : Char → Char}
    (hf : ∀ c, isPyWhitespace c = false → isPyWhitespace (f c) = false)
    {l : List Char} (h : NoEdgeWs l) : NoEdgeWs (l.map f) := by
  obtain ⟨h1, h2⟩ := h
  constructor
  · apply dropWhile_eq_self_of_head
    intro x hx
    cases l with
    | nil => cases hx
    | cons a t =>
      simp only [List.map_cons, List.head?_cons, Option.some.injEq] at hx
      have ha : isPyWhitespace a = false :=
        head?_dropWhile_false isPyWhitespace (a :: t) a (by rw [h1]; rfl)
      exact hx ▸ hf a ha
  · rw [← List.map_reverse]
    apply dropWhile_eq_self_of_head
    intro x hx
    cases hr : l.reverse with
    | nil =>
      rw [hr] at hx
      cases hx
    | cons a t =>
      rw [hr] at hx h2
      simp only [List.map_cons, List.head?_cons, Option.some.injEq] at hx
      have ha : isPyWhitespace a = false :=
        head?_dropWhile_false isPyWhitespace (a :: t) a (by rw [h2]; rfl)
      exact hx ▸ hf a ha

theorem toLowerChar_preserves_nonws (c : Char) (h : isPyWhitespace c = false) :
    isPyWhitespace (toLowerChar c) = false := by
  rw [toLowerChar_ws]
  exact h

theorem replaceSpaceChar_preserves_nonws (c : Char) (h : isPyWhitespace c = false) :
    isPyWhitespace (replaceSpaceChar c) = false := by
  rw [replaceSpaceChar_ws, h]
  rfl

theorem normalizeName_idem (s : String) : normalizeName (normalizeName s) = normalizeName s := by
  unfold normalizeName
  have hdata : (String.mk (((stripChars s.data).map toLowerChar).map replaceSpaceChar)).data =
      ((stripChars s.data).map toLowerChar).map replaceSpaceChar := rfl
  rw [hdata]
  have hstable : NoEdgeWs (((stripChars s.data).map toLowerChar).map replaceSpaceChar) :=
    noEdgeWs_map replaceSpaceChar_preserves_nonws
      (noEdgeWs_map toLowerChar_preserves_nonws (noEdgeWs_stripChars s.data))
  rw [stripChars_of_noEdgeWs hstable]
  refine congrArg String.mk ?_
  simp only [List.map_map]
  apply List.map_congr_left
  intro c hc
  show replaceSpaceChar (toLowerChar (replaceSpaceChar (toLowerChar c))) =
    replaceSpaceChar (toLowerChar c)
  rw [toLowerChar_replaceSpaceChar_lower, replaceSpaceChar_idem]

/-- Top-level aliases for the functional variant, used inside the
`FeedTransformation` namespace where the method names shadow them. -/
def fn_group_metadata := @group_metadata

/-- Top-level alias, see `fn_group_metadata`. -/
def fn_rename_column_value := @rename_column_value

/-- Top-level alias, see `fn_group_metadata`. -/
def fn_rename_cols := @rename_cols

/-- The class-based variant: a transformation session holding the feed and
the name of the currently tracked metadata column. -/
structure FeedTransformation where
  feed : Dataset
  current_metadata : Option String
deriving Repr, DecidableEq

/-- Python truthiness of `self.current_metadata` (an `Optional[str]`):
`None` and the empty string are falsy. -/
def truthy : Option String → Bool
  | none => false
  | some s => decide (¬ s = "")

/-- Outcome of one method call of the class-based variant: the state after
the call, the exception raised (if any; statements executed before the raise
keep their effect on the state), and whether a warning was emitted. -/
structure FTResult where
  state : FeedTransformation
  err : Option FtError
  warned : Bool
deriving Repr, DecidableEq

/-- `FeedTransformation.create_metadata(cols, meta_name)`: validates `cols`
with a `select` (raising `ColumnNotFoundError` before any mutation), warns
when `meta_name` already exists, remembers the previously tracked metadata
column when truthy, sets `current_metadata`, assigns the feed extended with
the struct column, and finally drops the old metadata column (a raise at
that last step leaves the already assigned feed in place). -/
def FeedTransformation.create_metadata (ft : FeedTransformation) (cols : List String)
    (meta_name : String := "metadata") : FTResult :=
  if ¬ (∀ c ∈ cols, c ∈ ft.feed.header) then ⟨ft, some .columnNotFound, false⟩
  else
    let warned := decide (meta_name ∈ ft.feed.header)
    let dropOld : Option String :=
      if truthy ft.current_metadata then ft.current_metadata else none
    let ft1 : FeedTransformation := { ft with current_metadata := some meta_name }
    if ¬ cols.Nodup then ⟨ft1, some .duplicateColumn, warned⟩
    else
      let fed := withColumnRows ft.feed meta_name (structVal ft.feed.header cols)
      match dropOld with
      | none => ⟨{ ft1 with feed := fed }, none, warned⟩
      | some m =>
        match dropColumn fed m with
        | .ok d => ⟨{ ft1 with feed := d }, none, warned⟩
        | .error e => ⟨{ ft1 with feed := fed }, some e, warned⟩

/-- The Python `Union[str, List[str]]` shape of the `on_col` argument. -/
inductive StrOrList where
  | str : String → StrOrList
  | list : List String → StrOrList
deriving Repr, DecidableEq

/-- The single-string grouping path of `all_combinations_metadata` (see
there): starting from the already mutated session `ft1`, pack `cols` of the
original feed `feed0` into a struct, select it with `oc` (raising
`ColumnNotFoundError` when `oc` is absent), group by `oc`, aggregate the
struct column into lists, left-join back onto `feed0`, assign, and drop the
previously tracked metadata column `dropOld` (a raise there keeps the
already assigned feed). -/
def allCombStr (ft1 : FeedTransformation) (feed0 : Dataset) (cols : List String)
    (oc meta_name : String) (dropOld : Option String) (warned : Bool) : FTResult :=
  let packed := withColumnRows feed0 meta_name (structVal feed0.header cols)
  if ¬ oc ∈ packed.header then ⟨ft1, some .columnNotFound, warned⟩
  else
    let sel : Dataset :=
      { header := meta_name :: [oc],
        rows := packed.rows.map (fun r =>
          (meta_name :: [oc]).map (getCell packed.header r)) }
    let key := fun r => [oc].map (getCell sel.header r)
    let gps := groupPairs key sel.rows
    let comb : Dataset :=
      { header := [oc] ++ [meta_name],
        rows := gps.map (fun p =>
          p.1 ++ [Value.list (p.2.map (fun r => getCell sel.header r meta_name))]) }
    let joined := joinLeft feed0 comb [oc]
    match dropOld with
    | none => ⟨{ ft1 with feed := joined }, none, warned⟩
    | some m =>
      match dropColumn joined m with
      | .ok d => ⟨{ ft1 with feed := d }, none, warned⟩
      | .error e => ⟨{ ft1 with feed := joined }, some e, warned⟩

/-- `FeedTransformation.all_combinations_metadata(cols, on_col, meta_name)`:
validates `cols`; warns on a name collision; sets `current_metadata` (before
the aggregation, so that mutation survives a later raise); builds
`comb_metadata` by `select(pl.col(meta_name, on_col))`.  `pl.col` accepts
only strings in its variadic tail, so a list-valued `on_col` raises
`TypeError` there (the feed is untouched but `current_metadata` is already
set); with a single string `on_col` the select raises `ColumnNotFoundError`
when that column is absent, otherwise the rows are grouped by `on_col`, the
struct column is aggregated into lists, the result is left-joined back onto
the feed and assigned, and finally the previously tracked metadata column is
dropped. -/
def FeedTransformation.all_combinations_metadata (ft : FeedTransformation)
    (cols : List String) (on_col : StrOrList) (meta_name : String := "metadata") :
    FTResult :=
  if ¬ (∀ c ∈ cols, c ∈ ft.feed.header) then ⟨ft, some .columnNotFound, false⟩
  else
    let warned := decide (meta_name ∈ ft.feed.header)
    let dropOld : Option String :=
      if truthy ft.current_metadata then ft.current_metadata else none
    let ft1 : FeedTransformation := { ft with current_metadata := some meta_name }
    if ¬ cols.Nodup then ⟨ft1, some .duplicateColumn, warned⟩
    else
      match on_col with
      | .list _ => ⟨ft1, some .typeError, warned⟩
      | .str oc => allCombStr ft1 ft.feed cols oc meta_name dropOld warned

/-- `FeedTransformation.group_metadata(group_cols, order)`: validates
`group_cols`; raises `ValueError` when `current_metadata` is `None` (the
source checks `is None`, so an empty-string name passes); then delegates to
the grouping aggregation, whose `agg` raises `ColumnNotFoundError` when the
tracked metadata column is absent from the feed. -/
def FeedTransformation.group_metadata (ft : FeedTransformation)
    (group_cols : List String) (order : Bool := false) : FTResult :=
  if ¬ (∀ c ∈ group_cols, c ∈ ft.feed.header) then ⟨ft, some .columnNotFound, false⟩
  else
    match ft.current_metadata with
    | none => ⟨ft, some .valueError, false⟩
    | some m =>
      match fn_group_metadata ft.feed group_cols m order with
      | .ok d => ⟨{ ft with feed := d }, none, false⟩
      | .error e => ⟨ft, some e, false⟩

/-- `FeedTransformation.rename_column_value(col, old, new, regex, ow)`:
validates `col`, then behaves as the functional variant. -/
def FeedTransformation.rename_column_value
    (matchFirst : String → String → Option (Nat × Nat)) (ft : FeedTransformation)
    (col old new : String) (regex : Bool := false) (ow : Option String := none) :
    FTResult :=
  match fn_rename_column_value matchFirst ft.feed col old new regex ow with
  | .ok (d, w) => ⟨{ ft with feed := d }, none, w⟩
  | .error e => ⟨ft, some e, false⟩

/-- `FeedTransformation.rename_cols(rename_dict)`: delegates to the engine's
`rename`; the assignment to `self.feed` only happens when `rename` returns. -/
def FeedTransformation.rename_cols (ft : FeedTransformation)
    (mapping : List (String × String)) : FTResult :=
  match fn_rename_cols ft.feed mapping with
  | .ok d => ⟨{ ft with feed := d }, none, false⟩
  | .error e => ⟨ft, some e, false⟩

/-- With valid, duplicate-free `cols`, `all_combinations_metadata` on a
single string grouping column reaches the `allCombStr` path with the session
already mutated. -/
theorem all_comb_str_eq (ft : FeedTransformation) (cols : List String)
    (oc meta_name : String) (hcols : ∀ c ∈ cols, c ∈ ft.feed.header)
    (hnd : cols.Nodup) :
    ft.all_combinations_metadata cols (.str oc) meta_name =
      allCombStr { ft with current_metadata := some meta_name } ft.feed cols oc meta_name
        (if truthy ft.current_metadata then ft.current_metadata else none)
        (decide (meta_name ∈ ft.feed.header)) := by
  unfold FeedTransformation.all_combinations_metadata
  rw [if_neg (not_not_intro hcols), if_neg (not_not_intro hnd)]

/-- With valid, duplicate-free `cols`, a list-valued `on_col` makes
`all_combinations_metadata` raise `TypeError` at
`pl.col(meta_name, on_col)`, after `current_metadata` was already set and
before the feed is touched. -/
theorem all_comb_list_typeerror (ft : FeedTransformation) (cols : List String)
    (l : List String) (meta_name : String) (hcols : ∀ c ∈ cols, c ∈ ft.feed.header)
    (hnd : cols.Nodup) :
    ft.all_combinations_metadata cols (.list l) meta_name =
      ⟨{ ft with current_metadata := some meta_name }, some .typeError,
        decide (meta_name ∈ ft.feed.header)⟩ := by
  unfold FeedTransformation.all_combinations_metadata
  rw [if_neg (not_not_intro hcols), if_neg (not_not_intro hnd)]

theorem getD_set_self (l : List Value) (i : Nat) (v : Value) (h : i < l.length) :
    (l.set i v).getD i Value.null = v := by
  simp [List.getD, List.getElem?_set, h]

theorem getD_set_ne (l : List Value) {i j : Nat} (v : Value) (h : ¬ i = j) :
    (l.set i v).getD j Value.null = l.getD j Value.null := by
  simp [List.getD, List.getElem?_set, h]

theorem getD_colIdx_header {header : List String} {c : String} (h : c ∈ header) :
    header.getD (colIdx header c) "" = c := by
  induction header with
  | nil => cases h
  | cons a t ih =>
    by_cases hac : a = c
    · simp [colIdx, hac]
    · rcases List.mem_cons.mp h with h | h
      · exact absurd h.symm hac
      · simp only [colIdx, if_neg hac]
        simpa [List.getD] using ih h

theorem colIdx_injective {header : List String} {c c2 : String}
    (hc : c ∈ header) (hc2 : c2 ∈ header) (hne : ¬ c = c2) :
    ¬ colIdx header c = colIdx header c2 := by
  intro he
  exact hne ((getD_colIdx_header hc).symm.trans (he ▸ getD_colIdx_header hc2))

theorem mem_rows_getD {rows : List (List Value)} {i : Nat} (h : i < rows.length) :
    rows.getD i [] ∈ rows := by
  have : rows.getD i [] = rows[i] := by
    simp [List.getD, List.getElem?_eq_getElem h]
  rw [this]
  exact List.getElem_mem h

/-- Reading the new column of `with_columns(struct)` gives the packed record
of the original row. -/
theorem getCell_withColumnRows_self {d : Dataset} {name : String}
    (f : List Value → Value) (hwf : d.WF) {r : List Value} (hr : r ∈ d.rows) :
    ∃ r2, (if name ∈ d.header then r.set (colIdx d.header name) (f r) else r ++ [f r]) = r2 ∧
      getCell (withColumnRows d name f).header r2 name = f r := by
  by_cases h : name ∈ d.header
  · refine ⟨_, by rw [if_pos h], ?_⟩
    unfold withColumnRows
    rw [if_pos h]
    unfold getCell
    exact getD_set_self r _ (f r) (by rw [hwf r hr]; exact colIdx_lt_length h)
  · refine ⟨_, by rw [if_neg h], ?_⟩
    unfold withColumnRows
    rw [if_neg h]
    exact getCell_append_single (f r) h (hwf r hr)

/-- C2: `pack_metadata` (`create_metadata` in the code) keeps the row count
and produces a struct column named `meta_name` whose fields are, for every
row, the row's values in `cols`. -/
theorem pack_metadata_correct (feed : Dataset) (cols : List String) (meta_name : String)
    (hwf : feed.WF) (hcols : ∀ c ∈ cols, c ∈ feed.header) (hnd : cols.Nodup) :
    ∃ out, create_metadata feed cols meta_name none = .ok out ∧
      out.rows.length = feed.rows.length ∧
      meta_name ∈ out.header ∧
      ∀ i, i < feed.rows.length →
        getCell out.header (out.rows.getD i []) meta_name =
          Value.struct (cols.map (fun c => (c, getCell feed.header (feed.rows.getD i []) c))) := by
  refine ⟨withColumnRows feed meta_name (structVal feed.header cols), ?_, ?_, ?_, ?_⟩
  · unfold create_metadata
    rw [if_neg (by simpa using hcols), if_neg (by simpa using hnd)]
  · unfold withColumnRows
    by_cases h : meta_name ∈ feed.header
    · rw [if_pos h]
      simp
    · rw [if_neg h]
      simp
  · unfold withColumnRows
    by_cases h : meta_name ∈ feed.header
    · rw [if_pos h]
      exact h
    · rw [if_neg h]
      simp
  · intro i hi
    have hr : feed.rows.getD i [] ∈ feed.rows := mem_rows_getD hi
    obtain ⟨r2, hr2, hget⟩ :=
      getCell_withColumnRows_self (structVal feed.header cols) hwf hr
    have hrow : (withColumnRows feed meta_name (structVal feed.header cols)).rows.getD i [] = r2 := by
      unfold withColumnRows
      by_cases h : meta_name ∈ feed.header
      · rw [if_pos h] at hr2 ⊢
        simp only [List.getD, List.getElem?_map]
        rw [← hr2]
        simp [List.getD, List.getElem?_eq_getElem hi]
      · rw [if_neg h] at hr2 ⊢
        simp only [List.getD, List.getElem?_map]
        rw [← hr2]
        simp [List.getD, List.getElem?_eq_getElem hi]
    rw [hrow, hget]
    rfl

/-- Concrete instance of `pack_metadata_correct`. -/
theorem pack_metadata_correct_witness :
    ∃ out, create_metadata ⟨["a", "b"], [[.int 1, .int 2], [.int 3, .int 4]]⟩
        ["b"] "metadata" none = .ok out ∧
      out.rows.length = 2 ∧
      "metadata" ∈ out.header ∧
      ∀ i, i < 2 →
        getCell out.header (out.rows.getD i []) "metadata" =
          Value.struct (["b"].map (fun c => (c,
            getCell ["a", "b"] ([[Value.int 1, .int 2], [.int 3, .int 4]].getD i []) c))) :=
  pack_metadata_correct ⟨["a", "b"], [[.int 1, .int 2], [.int 3, .int 4]]⟩ ["b"] "metadata"
    (by unfold Dataset.WF; decide) (by decide) (by decide)

theorem rows_map_getD {rows : List (List Value)} (g : List Value → List Value) {i : Nat}
    (h : i < rows.length) : (rows.map g).getD i [] = g (rows.getD i []) := by
  simp [List.getD, List.getElem?_map, List.getElem?_eq_getElem h]

/-- Reading back the rewritten column of a per-row column update. -/
theorem getCell_colmap (feed : Dataset) (g : List Value → Value) (col : String)
    (hwf : feed.WF) (hcol : col ∈ feed.header) {i : Nat} (hi : i < feed.rows.length) :
    getCell feed.header
      ((feed.rows.map (fun r => r.set (colIdx feed.header col) (g r))).getD i []) col =
      g (feed.rows.getD i []) := by
  rw [rows_map_getD _ hi]
  exact getD_set_self _ _ _ (by rw [hwf _ (mem_rows_getD hi)]; exact colIdx_lt_length hcol)

/-- A per-row update of one column leaves every other column unchanged. -/
theorem getCell_colmap_ne (feed : Dataset) (g : List Value → Value) (col c : String)
    (hwf : feed.WF) (hcol : col ∈ feed.header) (hc : c ∈ feed.header) (hne : ¬ c = col)
    {i : Nat} (hi : i < feed.rows.length) :
    getCell feed.header
      ((feed.rows.map (fun r => r.set (colIdx feed.header col) (g r))).getD i []) c =
      getCell feed.header (feed.rows.getD i []) c := by
  rw [rows_map_getD _ hi]
  exact getD_set_ne _ _ (colIdx_injective hcol hc (fun h => hne h.symm))

/-- C7: `rename_value` in regex mode only rewrites inside cells the pattern
matches: a cell the pattern does not match is returned byte-identical, a
matching cell has its first match spliced out for `new`, and every other
column is untouched. -/
theorem rename_value_regex_correct
    (matchFirst : String → String → Option (Nat × Nat)) (feed : Dataset)
    (col old new : String) (ow : Option String)
    (hwf : feed.WF) (hcol : col ∈ feed.header)
    (hstr : ∀ r ∈ feed.rows, isStrCell (getCell feed.header r col)) :
    ∃ d, rename_column_value matchFirst feed col old new true ow = .ok (d, ow.isNone) ∧
      d.header = feed.header ∧
      d.rows.length = feed.rows.length ∧
      (∀ i, i < feed.rows.length → ∀ s,
        getCell feed.header (feed.rows.getD i []) col = Value.str s →
        (matchFirst old s = none →
          getCell d.header (d.rows.getD i []) col = Value.str s) ∧
        (∀ pos len, matchFirst old s = some (pos, len) →
          getCell d.header (d.rows.getD i []) col =
            Value.str ⟨s.data.take pos ++ new.data ++ s.data.drop (pos + len)⟩)) ∧
      (∀ i, i < feed.rows.length → ∀ c ∈ feed.header, ¬ c = col →
        getCell d.header (d.rows.getD i []) c =
          getCell feed.header (feed.rows.getD i []) c) := by
  refine ⟨{ header := feed.header,
            rows := feed.rows.map (fun r =>
              r.set (colIdx feed.header col)
                (match getCell feed.header r col with
                 | .str s => Value.str (strReplaceFirst matchFirst old new s)
                 | v => v)) }, ?_, rfl, by simp, ?_, ?_⟩
  · unfold rename_column_value
    rw [if_neg (not_not_intro hcol)]
    exact if_pos hstr
  · intro i hi s hs
    have hcell : getCell feed.header
        ((feed.rows.map (fun r => r.set (colIdx feed.header col)
           (match getCell feed.header r col with
            | .str s2 => Value.str (strReplaceFirst matchFirst old new s2)
            | v => v))).getD i []) col =
        (match getCell feed.header (feed.rows.getD i []) col with
         | .str s2 => Value.str (strReplaceFirst matchFirst old new s2)
         | v => v) := getCell_colmap feed _ col hwf hcol hi
    rw [hs] at hcell
    constructor
    · intro hnone
      refine hcell.trans ?_
      show Value.str (strReplaceFirst matchFirst old new s) = Value.str s
      unfold strReplaceFirst
      rw [hnone]
    · intro pos len hsome
      refine hcell.trans ?_
      show Value.str (strReplaceFirst matchFirst old new s) = _
      unfold strReplaceFirst
      rw [hsome]
  · intro i hi c hc hne
    exact getCell_colmap_ne feed
      (fun r => match getCell feed.header r col with
        | .str s => Value.str (strReplaceFirst matchFirst old new s)
        | v => v) col c hwf hcol hc hne hi

/-- Concrete instance of `rename_value_regex_correct` (a matcher that finds
a match at position 0 of length 1 in the string `"xy"` and nothing else). -/
theorem rename_value_regex_correct_witness :
    ∃ d, rename_column_value (fun _ s => if s = "xy" then some (0, 1) else none)
        ⟨["a"], [[.str "xy"], [.str "zw"]]⟩
        "a" "x" "X" true none = .ok (d, (none : Option String).isNone) ∧
      d.header = ["a"] ∧
      d.rows.length = 2 ∧
      (∀ i, i < 2 → ∀ s,
        getCell ["a"] ([[Value.str "xy"], [.str "zw"]].getD i []) "a" = Value.str s →
        ((if s = "xy" then some (0, 1) else none) = none →
          getCell d.header (d.rows.getD i []) "a" = Value.str s) ∧
        (∀ pos len, (if s = "xy" then some (0, 1) else none) = some (pos, len) →
          getCell d.header (d.rows.getD i []) "a" =
            Value.str ⟨s.data.take pos ++ "X".data ++ s.data.drop (pos + len)⟩)) ∧
      (∀ i, i < 2 → ∀ c ∈ ["a"], ¬ c = "a" →
        getCell d.header (d.rows.getD i []) c =
          getCell ["a"] ([[Value.str "xy"], [.str "zw"]].getD i []) c) :=
  rename_value_regex_correct (fun _ s => if s = "xy" then some (0, 1) else none)
    ⟨["a"], [[.str "xy"], [.str "zw"]]⟩ "a" "x" "X" none
    (by unfold Dataset.WF; decide) (by decide) (by decide)

/-- C8: `normalize_column_names` (`format_cols` in the code) is idempotent:
applying it to its own (successful) output returns that output unchanged. -/
theorem normalize_column_names_idempotent (feed d1 : Dataset)
    (h : format_cols feed = .ok d1) : format_cols d1 = .ok d1 := by
  unfold format_cols at h ⊢
  by_cases hnd : (feed.header.map normalizeName).Nodup
  · rw [if_pos hnd] at h
    have hd1 : ({ header := feed.header.map normalizeName, rows := feed.rows } : Dataset) = d1 := by
      injection h
    subst hd1
    have hmap : (feed.header.map normalizeName).map normalizeName =
        feed.header.map normalizeName := by
      rw [List.map_map]
      apply List.map_congr_left
      intro c hc
      exact normalizeName_idem c
    show (if ((feed.header.map normalizeName).map normalizeName).Nodup then
        Except.ok ({ header := (feed.header.map normalizeName).map normalizeName,
                     rows := feed.rows } : Dataset)
      else Except.error FtError.duplicateColumn) =
      Except.ok { header := feed.header.map normalizeName, rows := feed.rows }
    rw [hmap, if_pos hnd]
  · rw [if_neg hnd] at h
    cases h

/-- Concrete instance of `normalize_column_names_idempotent`. -/
theorem normalize_column_names_idempotent_witness :
    format_cols ⟨["a_b", "c"], [[.int 1, .int 2]]⟩ = .ok ⟨["a_b", "c"], [[.int 1, .int 2]]⟩ :=
  normalize_column_names_idempotent ⟨["  A B ", "c"], [[.int 1, .int 2]]⟩
    ⟨["a_b", "c"], [[.int 1, .int 2]]⟩ (by rfl)

theorem header_withColumnRows (d : Dataset) (n : String) (f : List Value → Value)
    (x : String) : x ∈ (withColumnRows d n f).header ↔ x ∈ d.header ∨ x = n := by
  unfold withColumnRows
  by_cases h : n ∈ d.header
  · rw [if_pos h]
    constructor
    · exact Or.inl
    · rintro (hx | hx)
      · exact hx
      · exact hx ▸ h
  · rw [if_neg h]
    simp

theorem rename_cols_missing (feed : Dataset) (mapping : List (String × String))
    (p : String × String) (hp : p ∈ mapping) (h : ¬ p.1 ∈ feed.header) :
    rename_cols feed mapping = .error .schemaFieldNotFound := by
  unfold rename_cols
  rw [if_neg (fun hall => h (hall p hp))]

theorem create_metadata_missing (feed : Dataset) (cols : List String) (meta_name : String)
    (excl : Option String) (c : String) (hc : c ∈ cols) (h : ¬ c ∈ feed.header) :
    create_metadata feed cols meta_name excl = .error .columnNotFound := by
  unfold create_metadata
  rw [if_pos (fun hall => h (hall c hc))]

theorem all_comb_col_missing (feed : Dataset) (col : String) (over_col : List String)
    (h : ¬ col ∈ feed.header) :
    all_combinations_metadata feed col over_col = .error .columnNotFound := by
  unfold all_combinations_metadata
  rw [if_pos h]

theorem all_comb_over_missing (feed : Dataset) (col : String) (over_col : List String)
    (c : String) (hc : c ∈ over_col) (h : ¬ c ∈ feed.header) :
    all_combinations_metadata feed col over_col = .error .columnNotFound := by
  unfold all_combinations_metadata
  by_cases hcol : col ∈ feed.header
  · rw [if_neg (not_not_intro hcol), if_pos (fun hall => h (hall c hc))]
  · rw [if_pos hcol]

theorem group_metadata_group_missing (feed : Dataset) (group_cols : List String)
    (metadata : String) (order : Bool) (c : String) (hc : c ∈ group_cols)
    (h : ¬ c ∈ feed.header) :
    group_metadata feed group_cols metadata order = .error .columnNotFound := by
  unfold group_metadata
  rw [if_pos (fun hall => h (hall c hc))]

theorem group_metadata_meta_missing (feed : Dataset) (group_cols : List String)
    (metadata : String) (order : Bool) (h : ¬ metadata ∈ feed.header) :
    group_metadata feed group_cols metadata order = .error .columnNotFound := by
  unfold group_metadata
  by_cases hg : ∀ c ∈ group_cols, c ∈ feed.header
  · rw [if_neg (not_not_intro hg), if_pos h]
  · rw [if_pos hg]

theorem rename_value_missing (matchFirst : String → String → Option (Nat × Nat))
    (feed : Dataset) (col old new : String) (regex : Bool) (ow : Option String)
    (h : ¬ col ∈ feed.header) :
    rename_column_value matchFirst feed col old new regex ow = .error .columnNotFound := by
  unfold rename_column_value
  rw [if_pos h]

/-- C4 counterexample: `rename_columns` with a missing source column fails
with the engine's `SchemaFieldNotFound`, not `ColumnNotFound`, so the claim
that every column-referencing operation fails with `ColumnNotFound` is false. -/
theorem column_errors_counterexample :
    rename_cols ⟨["a"], [[.int 1]]⟩ [("zz", "b")] = .error .schemaFieldNotFound ∧
      ¬ (rename_cols ⟨["a"], [[.int 1]]⟩ [("zz", "b")] =
          .error .columnNotFound) := by
  constructor
  · rfl
  · intro h
    cases h

/-- C4 (amended): every column-referencing operation fails when a named
column (including grouping/over columns and the aggregated metadata column)
is absent; `pack_metadata`, `pack_metadata_grouped`, `collapse_by_group` and
`rename_value` fail with `ColumnNotFound`, while `rename_columns` fails with
`SchemaFieldNotFound`. -/
theorem column_errors_amended :
    (∀ (feed : Dataset) (mapping : List (String × String)) (p : String × String),
      p ∈ mapping → ¬ p.1 ∈ feed.header →
      rename_cols feed mapping = .error .schemaFieldNotFound) ∧
    (∀ (feed : Dataset) (cols : List String) (meta_name : String) (excl : Option String)
      (c : String), c ∈ cols → ¬ c ∈ feed.header →
      create_metadata feed cols meta_name excl = .error .columnNotFound) ∧
    (∀ (feed : Dataset) (col : String) (over_col : List String),
      ¬ col ∈ feed.header →
      all_combinations_metadata feed col over_col = .error .columnNotFound) ∧
    (∀ (feed : Dataset) (col : String) (over_col : List String) (c : String),
      c ∈ over_col → ¬ c ∈ feed.header →
      all_combinations_metadata feed col over_col = .error .columnNotFound) ∧
    (∀ (feed : Dataset) (group_cols : List String) (metadata : String) (order : Bool)
      (c : String), c ∈ group_cols → ¬ c ∈ feed.header →
      group_metadata feed group_cols metadata order = .error .columnNotFound) ∧
    (∀ (feed : Dataset) (group_cols : List String) (metadata : String) (order : Bool),
      ¬ metadata ∈ feed.header →
      group_metadata feed group_cols metadata order = .error .columnNotFound) ∧
    (∀ (matchFirst : String → String → Option (Nat × Nat)) (feed : Dataset)
      (col old new : String) (regex : Bool) (ow : Option String),
      ¬ col ∈ feed.header →
      rename_column_value matchFirst feed col old new regex ow =
        .error .columnNotFound) :=
  ⟨fun feed mapping p hp h => rename_cols_missing feed mapping p hp h,
   fun feed cols mn excl c hc h => create_metadata_missing feed cols mn excl c hc h,
   fun feed col oc h => all_comb_col_missing feed col oc h,
   fun feed col oc c hc h => all_comb_over_missing feed col oc c hc h,
   fun feed gc md od c hc h => group_metadata_group_missing feed gc md od c hc h,
   fun feed gc md od h => group_metadata_meta_missing feed gc md od h,
   fun mf feed col old new rg ow h => rename_value_missing mf feed col old new rg ow h⟩

/-- Concrete instance of `column_errors_amended`. -/
theorem column_errors_amended_witness :
    rename_cols ⟨["a"], [[.int 1]]⟩ [("z", "b")] = .error .schemaFieldNotFound ∧
    create_metadata ⟨["a"], [[.int 1]]⟩ ["z"] "m" none = .error .columnNotFound ∧
    all_combinations_metadata ⟨["a"], [[.int 1]]⟩ "z" ["a"] = .error .columnNotFound ∧
    all_combinations_metadata ⟨["a"], [[.int 1]]⟩ "a" ["z"] = .error .columnNotFound ∧
    group_metadata ⟨["a"], [[.int 1]]⟩ ["z"] "a" false = .error .columnNotFound ∧
    group_metadata ⟨["a"], [[.int 1]]⟩ ["a"] "z" false = .error .columnNotFound ∧
    rename_column_value (fun _ _ => none) ⟨["a"], [[.int 1]]⟩ "z" "x" "y" false none =
      .error .columnNotFound :=
  ⟨column_errors_amended.1 ⟨["a"], [[.int 1]]⟩ [("z", "b")] ("z", "b") (by decide) (by decide),
   column_errors_amended.2.1 ⟨["a"], [[.int 1]]⟩ ["z"] "m" none "z" (by decide) (by decide),
   column_errors_amended.2.2.1 ⟨["a"], [[.int 1]]⟩ "z" ["a"] (by decide),
   column_errors_amended.2.2.2.1 ⟨["a"], [[.int 1]]⟩ "a" ["z"] "z" (by decide) (by decide),
   column_errors_amended.2.2.2.2.1 ⟨["a"], [[.int 1]]⟩ ["z"] "a" false "z" (by decide) (by decide),
   column_errors_amended.2.2.2.2.2.1 ⟨["a"], [[.int 1]]⟩ ["a"] "z" false (by decide),
   column_errors_amended.2.2.2.2.2.2 (fun _ _ => none) ⟨["a"], [[.int 1]]⟩ "z" "x" "y"
     false none (by decide)⟩

/-- C5 counterexample: in the class-based variant, `rename_cols` with a
missing source column raises `SchemaFieldNotFound`, not `ColumnNotFound`
(the feed is indeed left unmodified), so the claim that every operation
raises `ColumnNotFound` is false. -/
theorem failed_op_counterexample :
    (FeedTransformation.rename_cols ⟨⟨["a"], [[.int 2]]⟩, none⟩ [("zz", "b")]).err =
        some .schemaFieldNotFound ∧
    ¬ ((FeedTransformation.rename_cols ⟨⟨["a"], [[.int 2]]⟩, none⟩ [("zz", "b")]).err =
        some .columnNotFound) ∧
    (FeedTransformation.rename_cols ⟨⟨["a"], [[.int 2]]⟩, none⟩ [("zz", "b")]).state.feed =
      ⟨["a"], [[.int 2]]⟩ := by
  refine ⟨rfl, ?_, rfl⟩
  intro h
  cases h

/-- C5 (amended): in the class-based variant, every operation invoked with a
missing column name fails and leaves the feed attribute unmodified; the
error is `ColumnNotFound` for `create_metadata`, `all_combinations_metadata`
(both for packed columns and for a missing single string grouping column —
a list-valued grouping argument instead raises `TypeError` at
`pl.col(meta_name, on_col)`, the feed still unmodified), `group_metadata`
(both for grouping columns and for the tracked metadata column) and
`rename_column_value`, while `rename_cols` raises `SchemaFieldNotFound`. -/
theorem failed_op_leaves_feed_amended :
    (∀ (ft : FeedTransformation) (mapping : List (String × String)) (p : String × String),
      p ∈ mapping → ¬ p.1 ∈ ft.feed.header →
      (ft.rename_cols mapping).err = some .schemaFieldNotFound ∧
      (ft.rename_cols mapping).state.feed = ft.feed) ∧
    (∀ (ft : FeedTransformation) (cols : List String) (meta_name : String) (c : String),
      c ∈ cols → ¬ c ∈ ft.feed.header →
      (ft.create_metadata cols meta_name).err = some .columnNotFound ∧
      (ft.create_metadata cols meta_name).state = ft) ∧
    (∀ (ft : FeedTransformation) (cols : List String) (on_col : StrOrList)
      (meta_name c : String), c ∈ cols → ¬ c ∈ ft.feed.header →
      (ft.all_combinations_metadata cols on_col meta_name).err = some .columnNotFound ∧
      (ft.all_combinations_metadata cols on_col meta_name).state = ft) ∧
    (∀ (ft : FeedTransformation) (cols : List String) (oc meta_name : String),
      (∀ c2 ∈ cols, c2 ∈ ft.feed.header) → cols.Nodup →
      ¬ oc ∈ ft.feed.header → ¬ oc = meta_name →
      (ft.all_combinations_metadata cols (.str oc) meta_name).err = some .columnNotFound ∧
      (ft.all_combinations_metadata cols (.str oc) meta_name).state.feed = ft.feed) ∧
    (∀ (ft : FeedTransformation) (cols ls : List String) (meta_name : String),
      (∀ c2 ∈ cols, c2 ∈ ft.feed.header) → cols.Nodup →
      (ft.all_combinations_metadata cols (.list ls) meta_name).err = some .typeError ∧
      (ft.all_combinations_metadata cols (.list ls) meta_name).state.feed = ft.feed) ∧
    (∀ (ft : FeedTransformation) (group_cols : List String) (order : Bool) (c : String),
      c ∈ group_cols → ¬ c ∈ ft.feed.header →
      (ft.group_metadata group_cols order).err = some .columnNotFound ∧
      (ft.group_metadata group_cols order).state = ft) ∧
    (∀ (ft : FeedTransformation) (group_cols : List String) (order : Bool) (m : String),
      (∀ c ∈ group_cols, c ∈ ft.feed.header) → ft.current_metadata = some m →
      ¬ m ∈ ft.feed.header →
      (ft.group_metadata group_cols order).err = some .columnNotFound ∧
      (ft.group_metadata group_cols order).state = ft) ∧
    (∀ (matchFirst : String → String → Option (Nat × Nat)) (ft : FeedTransformation)
      (col old new : String) (regex : Bool) (ow : Option String),
      ¬ col ∈ ft.feed.header →
      (ft.rename_column_value matchFirst col old new regex ow).err = some .columnNotFound ∧
      (ft.rename_column_value matchFirst col old new regex ow).state = ft) := by
  refine ⟨?_, ?_, ?_, ?_, ?_, ?_, ?_, ?_⟩
  · intro ft mapping p hp h
    unfold FeedTransformation.rename_cols fn_rename_cols
    rw [rename_cols_missing ft.feed mapping p hp h]
    exact ⟨rfl, rfl⟩
  · intro ft cols meta_name c hc h
    unfold FeedTransformation.create_metadata
    rw [if_pos (fun hall => h (hall c hc))]
    exact ⟨rfl, rfl⟩
  · intro ft cols on_col meta_name c hc h
    unfold FeedTransformation.all_combinations_metadata
    rw [if_pos (fun hall => h (hall c hc))]
    exact ⟨rfl, rfl⟩
  · intro ft cols oc meta_name hcols hnd h hcm
    rw [all_comb_str_eq ft cols oc meta_name hcols hnd]
    unfold allCombStr
    rw [if_pos (fun hm => by
      rw [header_withColumnRows] at hm
      rcases hm with hm | hm
      · exact h hm
      · exact hcm hm)]
    exact ⟨rfl, rfl⟩
  · intro ft cols ls meta_name hcols hnd
    rw [all_comb_list_typeerror ft cols ls meta_name hcols hnd]
    exact ⟨rfl, rfl⟩
  · intro ft group_cols order c hc h
    unfold FeedTransformation.group_metadata
    rw [if_pos (fun hall => h (hall c hc))]
    exact ⟨rfl, rfl⟩
  · intro ft group_cols order m hg hcur h
    unfold FeedTransformation.group_metadata
    rw [if_neg (not_not_intro hg)]
    simp only [hcur]
    rw [show fn_group_metadata ft.feed group_cols m order = .error .columnNotFound from
      group_metadata_meta_missing ft.feed group_cols m order h]
    exact ⟨rfl, rfl⟩
  · intro matchFirst ft col old new regex ow h
    unfold FeedTransformation.rename_column_value fn_rename_column_value
    rw [rename_value_missing matchFirst ft.feed col old new regex ow h]
    exact ⟨rfl, rfl⟩

/-- Concrete instance of `failed_op_leaves_feed_amended`. -/
theorem failed_op_leaves_feed_amended_witness :
    ((FeedTransformation.rename_cols ⟨⟨["a"], [[.int 1]]⟩, none⟩ [("z", "b")]).err =
        some .schemaFieldNotFound ∧
      (FeedTransformation.rename_cols ⟨⟨["a"], [[.int 1]]⟩, none⟩ [("z", "b")]).state.feed =
        (⟨["a"], [[.int 1]]⟩ : Dataset)) ∧
    ((FeedTransformation.create_metadata ⟨⟨["a"], [[.int 1]]⟩, none⟩ ["z"] "m").err =
        some .columnNotFound ∧
      (FeedTransformation.create_metadata ⟨⟨["a"], [[.int 1]]⟩, none⟩ ["z"] "m").state =
        (⟨⟨["a"], [[.int 1]]⟩, none⟩ : FeedTransformation)) ∧
    ((FeedTransformation.all_combinations_metadata ⟨⟨["a"], [[.int 1]]⟩, none⟩
        ["z"] (.str "a") "m").err = some .columnNotFound ∧
      (FeedTransformation.all_combinations_metadata ⟨⟨["a"], [[.int 1]]⟩, none⟩
        ["z"] (.str "a") "m").state = (⟨⟨["a"], [[.int 1]]⟩, none⟩ : FeedTransformation)) ∧
    ((FeedTransformation.all_combinations_metadata ⟨⟨["a"], [[.int 1]]⟩, none⟩
        ["a"] (.str "z") "m").err = some .columnNotFound ∧
      (FeedTransformation.all_combinations_metadata ⟨⟨["a"], [[.int 1]]⟩, none⟩
        ["a"] (.str "z") "m").state.feed = (⟨["a"], [[.int 1]]⟩ : Dataset)) ∧
    ((FeedTransformation.all_combinations_metadata ⟨⟨["a"], [[.int 1]]⟩, none⟩
        ["a"] (.list ["a"]) "m").err = some .typeError ∧
      (FeedTransformation.all_combinations_metadata ⟨⟨["a"], [[.int 1]]⟩, none⟩
        ["a"] (.list ["a"]) "m").state.feed = (⟨["a"], [[.int 1]]⟩ : Dataset)) ∧
    ((FeedTransformation.group_metadata ⟨⟨["a"], [[.int 1]]⟩, some "m"⟩ ["z"] false).err =
        some .columnNotFound ∧
      (FeedTransformation.group_metadata ⟨⟨["a"], [[.int 1]]⟩, some "m"⟩ ["z"] false).state =
        (⟨⟨["a"], [[.int 1]]⟩, some "m"⟩ : FeedTransformation)) ∧
    ((FeedTransformation.group_metadata ⟨⟨["a"], [[.int 1]]⟩, some "m"⟩ ["a"] false).err =
        some .columnNotFound ∧
      (FeedTransformation.group_metadata ⟨⟨["a"], [[.int 1]]⟩, some "m"⟩ ["a"] false).state =
        (⟨⟨["a"], [[.int 1]]⟩, some "m"⟩ : FeedTransformation)) ∧
    ((FeedTransformation.rename_column_value (fun _ _ => none) ⟨⟨["a"], [[.int 1]]⟩, none⟩
        "z" "x" "y" false none).err = some .columnNotFound ∧
      (FeedTransformation.rename_column_value (fun _ _ => none) ⟨⟨["a"], [[.int 1]]⟩, none⟩
        "z" "x" "y" false none).state = (⟨⟨["a"], [[.int 1]]⟩, none⟩ : FeedTransformation)) :=
  ⟨failed_op_leaves_feed_amended.1 ⟨⟨["a"], [[.int 1]]⟩, none⟩ [("z", "b")] ("z", "b")
      (by decide) (by decide),
   failed_op_leaves_feed_amended.2.1 ⟨⟨["a"], [[.int 1]]⟩, none⟩ ["z"] "m" "z"
      (by decide) (by decide),
   failed_op_leaves_feed_amended.2.2.1 ⟨⟨["a"], [[.int 1]]⟩, none⟩ ["z"] (.str "a") "m" "z"
      (by decide) (by decide),
   failed_op_leaves_feed_amended.2.2.2.1 ⟨⟨["a"], [[.int 1]]⟩, none⟩ ["a"] "z" "m"
      (by decide) (by decide) (by decide) (by decide),
   failed_op_leaves_feed_amended.2.2.2.2.1 ⟨⟨["a"], [[.int 1]]⟩, none⟩ ["a"] ["a"] "m"
      (by decide) (by decide),
   failed_op_leaves_feed_amended.2.2.2.2.2.1 ⟨⟨["a"], [[.int 1]]⟩, some "m"⟩ ["z"] false "z"
      (by decide) (by decide),
   failed_op_leaves_feed_amended.2.2.2.2.2.2.1 ⟨⟨["a"], [[.int 1]]⟩, some "m"⟩ ["a"] false "m"
      (by decide) rfl (by decide),
   failed_op_leaves_feed_amended.2.2.2.2.2.2.2 (fun _ _ => none) ⟨⟨["a"], [[.int 1]]⟩, none⟩
      "z" "x" "y" false none (by decide)⟩

theorem nodup_withColumnRows_header (d : Dataset) (n : String) (f : List Value → Value)
    (h : d.header.Nodup) : (withColumnRows d n f).header.Nodup := by
  unfold withColumnRows
  by_cases hn : n ∈ d.header
  · rw [if_pos hn]
    exact h
  · rw [if_neg hn]
    simp [List.nodup_append, h, hn]

theorem mem_eraseIdx_colIdx {header : List String} {c : String} (hnd : header.Nodup)
    (hc : c ∈ header) (x : String) :
    x ∈ header.eraseIdx (colIdx header c) ↔ x ∈ header ∧ ¬ x = c := by
  induction header with
  | nil => cases hc
  | cons a t ih =>
    obtain ⟨hat, hnt⟩ := List.nodup_cons.mp hnd
    by_cases hac : a = c
    · rw [show colIdx (a :: t) c = 0 from by simp [colIdx, hac], List.eraseIdx_cons_zero]
      constructor
      · intro hx
        refine ⟨List.mem_cons_of_mem a hx, ?_⟩
        intro he
        exact hat (hac ▸ he ▸ hx)
      · rintro ⟨hx, hxc⟩
        rcases List.mem_cons.mp hx with hx | hx
        · exact absurd (hx.trans hac) hxc
        · exact hx
    · have hct : c ∈ t := by
        rcases List.mem_cons.mp hc with h | h
        · exact absurd h.symm hac
        · exact h
      rw [show colIdx (a :: t) c = colIdx t c + 1 from by simp [colIdx, hac],
        List.eraseIdx_cons_succ]
      constructor
      · intro hx
        rcases List.mem_cons.mp hx with hx | hx
        · refine ⟨hx ▸ List.mem_cons_self a t, ?_⟩
          intro he
          exact hac (hx ▸ he)
        · obtain ⟨hxt, hxc⟩ := (ih hnt hct).mp hx
          exact ⟨List.mem_cons_of_mem a hxt, hxc⟩
      · rintro ⟨hx, hxc⟩
        rcases List.mem_cons.mp hx with hx | hx
        · exact hx ▸ List.mem_cons_self a _
        · exact List.mem_cons_of_mem a ((ih hnt hct).mpr ⟨hx, hxc⟩)

/-- The dataset with column `m` (header entry and row cells) removed. -/
def erasedDataset (d : Dataset) (m : String) : Dataset :=
  { header := d.header.eraseIdx (colIdx d.header m),
    rows := d.rows.map (fun r => r.eraseIdx (colIdx d.header m)) }

theorem dropColumn_ok (d : Dataset) (m : String) (h : m ∈ d.header) :
    dropColumn d m = .ok (erasedDataset d m) := by
  unfold dropColumn erasedDataset
  rw [if_pos h]

/-- Success path of the class-based `create_metadata` when a (truthy)
previous metadata column is tracked: the struct column is added, then the
old column is dropped from the assigned feed. -/
theorem create_metadata_drop_spec (ft : FeedTransformation) (cols : List String)
    (meta_name m : String) (hcols : ∀ c ∈ cols, c ∈ ft.feed.header) (hnd : cols.Nodup)
    (hcur : ft.current_metadata = some m) (hm0 : ¬ m = "")
    (hmf : m ∈ (withColumnRows ft.feed meta_name (structVal ft.feed.header cols)).header) :
    ft.create_metadata cols meta_name =
      ⟨⟨erasedDataset (withColumnRows ft.feed meta_name (structVal ft.feed.header cols)) m,
        some meta_name⟩, none, decide (meta_name ∈ ft.feed.header)⟩ := by
  unfold FeedTransformation.create_metadata
  rw [if_neg (not_not_intro hcols), if_neg (not_not_intro hnd)]
  have htr : (if truthy ft.current_metadata then ft.current_metadata else none) = some m := by
    rw [hcur]
    unfold truthy
    rw [if_pos (by simpa using hm0)]
  simp only [htr]
  rw [dropColumn_ok (withColumnRows ft.feed meta_name (structVal ft.feed.header cols)) m hmf]

/-- C9 counterexample: creating a second metadata column (`"m2"`) while a
previous one (`"m1"`) is tracked emits no warning (the code only warns when
the new name collides with an existing column), refuting the claim that such
a call always warns. -/
theorem one_metadata_warning_counterexample :
    (FeedTransformation.create_metadata ⟨⟨["a"], [[.int 1]]⟩, none⟩
        ["a"] "m1").state.current_metadata = some "m1" ∧
    (FeedTransformation.create_metadata
        (FeedTransformation.create_metadata ⟨⟨["a"], [[.int 1]]⟩, none⟩ ["a"] "m1").state
        ["a"] "m2").warned = false := ⟨rfl, rfl⟩

/-- C10 counterexample: with the empty string as metadata name (falsy in the
Python truthiness test), a second `create_metadata` with the tracked name
leaves the feed WITH a column of that name, refuting the claim for that
input. -/
theorem recreate_same_name_counterexample :
    (FeedTransformation.create_metadata ⟨⟨["a"], [[.int 1]]⟩, none⟩
        ["a"] "").state.current_metadata = some "" ∧
    (FeedTransformation.create_metadata
        (FeedTransformation.create_metadata ⟨⟨["a"], [[.int 1]]⟩, none⟩ ["a"] "").state
        ["a"] "").state.current_metadata = some "" ∧
    "" ∈ (FeedTransformation.create_metadata
        (FeedTransformation.create_metadata ⟨⟨["a"], [[.int 1]]⟩, none⟩ ["a"] "").state
        ["a"] "").state.feed.header := by
  refine ⟨rfl, rfl, ?_⟩
  decide

/-- C10 (amended): calling `create_metadata` with a nonempty `meta_name`
equal to the currently tracked metadata name succeeds but leaves the feed
with no column of that name at all (the freshly created struct column is
itself dropped), while `current_metadata` continues to name the now-absent
column. -/
theorem recreate_same_name_drops_column (ft : FeedTransformation) (cols : List String)
    (m : String) (hcols : ∀ c ∈ cols, c ∈ ft.feed.header) (hnd : cols.Nodup)
    (hh : ft.feed.header.Nodup) (hcur : ft.current_metadata = some m) (hm0 : ¬ m = "") :
    (ft.create_metadata cols m).err = none ∧
    (ft.create_metadata cols m).state.current_metadata = some m ∧
    ¬ m ∈ (ft.create_metadata cols m).state.feed.header := by
  have hmf : m ∈ (withColumnRows ft.feed m (structVal ft.feed.header cols)).header :=
    (header_withColumnRows _ _ _ m).mpr (Or.inr rfl)
  have hfn : (withColumnRows ft.feed m (structVal ft.feed.header cols)).header.Nodup :=
    nodup_withColumnRows_header ft.feed m _ hh
  rw [create_metadata_drop_spec ft cols m m hcols hnd hcur hm0 hmf]
  refine ⟨rfl, rfl, ?_⟩
  intro hmm
  exact ((mem_eraseIdx_colIdx hfn hmf m).mp (by simpa [erasedDataset] using hmm)).2 rfl

/-- Concrete instance of `recreate_same_name_drops_column`. -/
theorem recreate_same_name_drops_column_witness :
    (FeedTransformation.create_metadata ⟨⟨["a", "m"], [[.int 1, .int 2]]⟩, some "m"⟩
        ["a"] "m").err = none ∧
    (FeedTransformation.create_metadata ⟨⟨["a", "m"], [[.int 1, .int 2]]⟩, some "m"⟩
        ["a"] "m").state.current_metadata = some "m" ∧
    ¬ "m" ∈ (FeedTransformation.create_metadata ⟨⟨["a", "m"], [[.int 1, .int 2]]⟩, some "m"⟩
        ["a"] "m").state.feed.header :=
  recreate_same_name_drops_column ⟨⟨["a", "m"], [[.int 1, .int 2]]⟩, some "m"⟩ ["a"] "m"
    (by decide) (by decide) (by decide) rfl (by decide)

/-- C1: `collapse_by_group` (`group_metadata` in the code) produces exactly
one row per distinct combination of the grouping columns present in the
input (keys listed in first-seen order, which `maintain_order` guarantees
and which is one admissible order otherwise): each output row carries the
group key, then for every non-group non-metadata column the value of the
first input row of that group, then the list of the metadata values of all
input rows of that group in input order. -/
theorem collapse_by_group_correct (feed : Dataset) (group_cols : List String)
    (metadata : String) (order : Bool)
    (hg : ∀ c ∈ group_cols, c ∈ feed.header) (hm : metadata ∈ feed.header) :
    ∃ out, group_metadata feed group_cols metadata order = .ok out ∧
      out.header = group_cols ++
        feed.header.filter (fun c => decide (c ∉ group_cols) && decide (c ≠ metadata)) ++
        [metadata] ∧
      out.rows =
        (firstSeen (feed.rows.map (fun r => group_cols.map (getCell feed.header r)))).map
          (fun k =>
            k ++
            (feed.header.filter
              (fun c => decide (c ∉ group_cols) && decide (c ≠ metadata))).map
              (fun c => getCell feed.header
                ((feed.rows.filter (fun r =>
                  decide (group_cols.map (getCell feed.header r) = k))).headD []) c) ++
            [Value.list ((feed.rows.filter (fun r =>
                decide (group_cols.map (getCell feed.header r) = k))).map
              (fun r => getCell feed.header r metadata))]) ∧
      (firstSeen (feed.rows.map (fun r => group_cols.map (getCell feed.header r)))).Nodup ∧
      (∀ k, k ∈ firstSeen (feed.rows.map (fun r => group_cols.map (getCell feed.header r))) ↔
        k ∈ feed.rows.map (fun r => group_cols.map (getCell feed.header r))) := by
  refine ⟨⟨group_cols ++
              feed.header.filter
                (fun c => decide (c ∉ group_cols) && decide (c ≠ metadata)) ++
              [metadata],
            (groupPairs (fun r => group_cols.map (getCell feed.header r)) feed.rows).map
              (fun p =>
                p.1 ++
                (feed.header.filter
                  (fun c => decide (c ∉ group_cols) && decide (c ≠ metadata))).map
                  (fun c => getCell feed.header (p.2.headD []) c) ++
                [Value.list (p.2.map (fun r => getCell feed.header r metadata))])⟩,
    ?_, rfl, ?_, nodup_firstSeen _, fun k => mem_firstSeen _ k⟩
  · unfold group_metadata
    rw [if_neg (not_not_intro hg), if_neg (not_not_intro hm)]
  · have hnd : ((groupPairs (fun r => group_cols.map (getCell feed.header r))
        feed.rows).map Prod.fst).Nodup := by
      rw [fst_groupPairs]
      exact nodup_firstSeen _
    calc (groupPairs (fun r => group_cols.map (getCell feed.header r)) feed.rows).map
          (fun p =>
            p.1 ++
            (feed.header.filter
              (fun c => decide (c ∉ group_cols) && decide (c ≠ metadata))).map
              (fun c => getCell feed.header (p.2.headD []) c) ++
            [Value.list (p.2.map (fun r => getCell feed.header r metadata))])
        = ((groupPairs (fun r => group_cols.map (getCell feed.header r))
            feed.rows).map Prod.fst).map
            (fun k =>
              k ++
              (feed.header.filter
                (fun c => decide (c ∉ group_cols) && decide (c ≠ metadata))).map
                (fun c => getCell feed.header
                  ((lookupGroup (groupPairs (fun r =>
                    group_cols.map (getCell feed.header r)) feed.rows) k).headD []) c) ++
              [Value.list ((lookupGroup (groupPairs (fun r =>
                  group_cols.map (getCell feed.header r)) feed.rows) k).map
                (fun r => getCell feed.header r metadata))]) :=
          map_groupPairs_eq _ _ hnd
      _ = (firstSeen (feed.rows.map (fun r => group_cols.map (getCell feed.header r)))).map
            (fun k =>
              k ++
              (feed.header.filter
                (fun c => decide (c ∉ group_cols) && decide (c ≠ metadata))).map
                (fun c => getCell feed.header
                  ((lookupGroup (groupPairs (fun r =>
                    group_cols.map (getCell feed.header r)) feed.rows) k).headD []) c) ++
              [Value.list ((lookupGroup (groupPairs (fun r =>
                  group_cols.map (getCell feed.header r)) feed.rows) k).map
                (fun r => getCell feed.header r metadata))]) := by
          rw [fst_groupPairs]
      _ = (firstSeen (feed.rows.map (fun r => group_cols.map (getCell feed.header r)))).map
            (fun k =>
              k ++
              (feed.header.filter
                (fun c => decide (c ∉ group_cols) && decide (c ≠ metadata))).map
                (fun c => getCell feed.header
                  ((feed.rows.filter (fun r =>
                    decide (group_cols.map (getCell feed.header r) = k))).headD []) c) ++
              [Value.list ((feed.rows.filter (fun r =>
                  decide (group_cols.map (getCell feed.header r) = k))).map
                (fun r => getCell feed.header r metadata))]) := by
          apply List.map_congr_left
          intro k hk
          rw [lookupGroup_groupPairs]

/-- Concrete instance of `collapse_by_group_correct` (the worked example of
the specification: ids [1,1,2] with packed prices collapse to two rows). -/
theorem collapse_by_group_correct_witness :
    ∃ out, group_metadata
        ⟨["id", "price", "meta"],
         [[.int 1, .int 10, .struct [("price", .int 10)]],
          [.int 1, .int 20, .struct [("price", .int 20)]],
          [.int 2, .int 30, .struct [("price", .int 30)]]]⟩
        ["id"] "meta" true = .ok out ∧
      out.header = ["id"] ++
        (["id", "price", "meta"].filter
          (fun c => decide (c ∉ ["id"]) && decide (c ≠ "meta"))) ++ ["meta"] ∧
      out.rows =
        (firstSeen ([[Value.int 1, .int 10, .struct [("price", .int 10)]],
          [.int 1, .int 20, .struct [("price", .int 20)]],
          [.int 2, .int 30, .struct [("price", .int 30)]]].map
            (fun r => ["id"].map (getCell ["id", "price", "meta"] r)))).map
          (fun k =>
            k ++
            (["id", "price", "meta"].filter
              (fun c => decide (c ∉ ["id"]) && decide (c ≠ "meta"))).map
              (fun c => getCell ["id", "price", "meta"]
                (([[Value.int 1, .int 10, .struct [("price", .int 10)]],
                  [.int 1, .int 20, .struct [("price", .int 20)]],
                  [.int 2, .int 30, .struct [("price", .int 30)]]].filter (fun r =>
                  decide (["id"].map (getCell ["id", "price", "meta"] r) = k))).headD []) c) ++
            [Value.list (([[Value.int 1, .int 10, .struct [("price", .int 10)]],
                [.int 1, .int 20, .struct [("price", .int 20)]],
                [.int 2, .int 30, .struct [("price", .int 30)]]].filter (fun r =>
                decide (["id"].map (getCell ["id", "price", "meta"] r) = k))).map
              (fun r => getCell ["id", "price", "meta"] r "meta"))]) ∧
      (firstSeen ([[Value.int 1, .int 10, .struct [("price", .int 10)]],
        [.int 1, .int 20, .struct [("price", .int 20)]],
        [.int 2, .int 30, .struct [("price", .int 30)]]].map
          (fun r => ["id"].map (getCell ["id", "price", "meta"] r)))).Nodup ∧
      (∀ k, k ∈ firstSeen ([[Value.int 1, .int 10, .struct [("price", .int 10)]],
          [.int 1, .int 20, .struct [("price", .int 20)]],
          [.int 2, .int 30, .struct [("price", .int 30)]]].map
            (fun r => ["id"].map (getCell ["id", "price", "meta"] r))) ↔
        k ∈ [[Value.int 1, .int 10, .struct [("price", .int 10)]],
          [.int 1, .int 20, .struct [("price", .int 20)]],
          [.int 2, .int 30, .struct [("price", .int 30)]]].map
            (fun r => ["id"].map (getCell ["id", "price", "meta"] r))) :=
  collapse_by_group_correct
    ⟨["id", "price", "meta"],
     [[.int 1, .int 10, .struct [("price", .int 10)]],
      [.int 1, .int 20, .struct [("price", .int 20)]],
      [.int 2, .int 30, .struct [("price", .int 30)]]]⟩
    ["id"] "meta" true (by decide) (by decide)

theorem flatMap_congr_mem {α β : Type} {f g : α → List β} :
    ∀ (l : List α), (∀ x ∈ l, f x = g x) → l.flatMap f = l.flatMap g := by
  intro l
  induction l with
  | nil => intro _; rfl
  | cons x xs ih =>
    intro h
    simp only [List.flatMap_cons]
    rw [h x (List.mem_cons_self x xs), ih (fun y hy => h y (List.mem_cons_of_mem x hy))]

theorem flatMap_singleton_map {α β : Type} (f : α → β) :
    ∀ (l : List α), l.flatMap (fun x => [f x]) = l.map f := by
  intro l
  induction l with
  | nil => rfl
  | cons x xs ih =>
    simp only [List.flatMap_cons, List.map_cons, List.singleton_append]
    rw [ih]

/-- Success path of the class-based `all_combinations_metadata` on a fresh
session and a single string grouping column: validation passes,
`current_metadata` is set, the aggregated metadata lists are left-joined
onto the feed, and nothing is dropped. -/
theorem all_comb_success_spec (ft : FeedTransformation) (cols : List String)
    (oc meta_name : String) (hcols : ∀ c ∈ cols, c ∈ ft.feed.header) (hnd : cols.Nodup)
    (hoc : oc ∈ ft.feed.header) (hcur : ft.current_metadata = none) :
    ft.all_combinations_metadata cols (.str oc) meta_name =
      ⟨⟨joinLeft ft.feed
          ⟨[oc] ++ [meta_name],
           (groupPairs (fun r => [oc].map (getCell (meta_name :: [oc]) r))
              ((withColumnRows ft.feed meta_name (structVal ft.feed.header cols)).rows.map
                (fun r => (meta_name :: [oc]).map
                  (getCell (withColumnRows ft.feed meta_name
                    (structVal ft.feed.header cols)).header r)))).map
             (fun p => p.1 ++ [Value.list (p.2.map (fun r =>
                getCell (meta_name :: [oc]) r meta_name))])⟩
          [oc],
        some meta_name⟩, none, decide (meta_name ∈ ft.feed.header)⟩ := by
  rw [all_comb_str_eq ft cols oc meta_name hcols hnd]
  unfold allCombStr
  rw [if_neg (not_not_intro
    ((header_withColumnRows ft.feed meta_name (structVal ft.feed.header cols) oc).mpr
      (Or.inl hoc)))]
  have htr : (if truthy ft.current_metadata then ft.current_metadata else none) = none := by
    rw [hcur]
    exact ite_self none
  simp only [htr]

theorem map_getCell_cons {on_col : List String} {meta_name : String} (hond : on_col.Nodup)
    (hmo : meta_name ∉ on_col) (v : Value) (k : List Value) (hlen : k.length = on_col.length) :
    on_col.map (getCell (meta_name :: on_col) (v :: k)) = k := by
  calc on_col.map (getCell (meta_name :: on_col) (v :: k))
      = on_col.map (fun c => getCell on_col k c) := by
        apply List.map_congr_left
        intro c hc
        have hne : ¬ meta_name = c := fun he => hmo (he ▸ hc)
        simp [getCell, colIdx, hne, List.getD]
    _ = k := map_getCell_self hond hlen

theorem map_getCell_append_self {on_col : List String} (ext : List String) {k : List Value}
    (tail : List Value) (hond : on_col.Nodup) (hlen : k.length = on_col.length) :
    on_col.map (getCell (on_col ++ ext) (k ++ tail)) = k := by
  calc on_col.map (getCell (on_col ++ ext) (k ++ tail))
      = on_col.map (fun c => getCell on_col k c) := by
        apply List.map_congr_left
        intro c hc
        exact getCell_append_of_mem ext tail hc hlen
    _ = k := map_getCell_self hond hlen

/-- Joining the grouped metadata lists back onto the feed appends, to every
row whose join key holds no null, the list of the packed records of all rows
sharing its `on_col` key. -/
theorem all_comb_join_spec (feed : Dataset) (cols on_col : List String) (meta_name : String)
    (hwf : feed.WF) (hon : ∀ c ∈ on_col, c ∈ feed.header) (hond : on_col.Nodup)
    (hfresh : ¬ meta_name ∈ feed.header)
    (hnull : ∀ r ∈ feed.rows, ¬ Value.null ∈ on_col.map (getCell feed.header r)) :
    joinLeft feed
      ⟨on_col ++ [meta_name],
       (groupPairs (fun r => on_col.map (getCell (meta_name :: on_col) r))
          ((withColumnRows feed meta_name (structVal feed.header cols)).rows.map
            (fun r => (meta_name :: on_col).map
              (getCell (withColumnRows feed meta_name (structVal feed.header cols)).header r)))).map
         (fun p => p.1 ++ [Value.list (p.2.map (fun r =>
            getCell (meta_name :: on_col) r meta_name))])⟩
      on_col =
    ⟨feed.header ++ [meta_name],
     feed.rows.map (fun r =>
       r ++ [Value.list ((feed.rows.filter (fun q =>
           decide (on_col.map (getCell feed.header q) =
             on_col.map (getCell feed.header r)))).map
         (fun q => structVal feed.header cols q))])⟩ := by
  have hmo : meta_name ∉ on_col := fun hmem => hfresh (hon _ hmem)
  have h0 : withColumnRows feed meta_name (structVal feed.header cols) =
      ⟨feed.header ++ [meta_name],
       feed.rows.map (fun r => r ++ [structVal feed.header cols r])⟩ := by
    unfold withColumnRows
    rw [if_neg hfresh]
  rw [h0]
  have hsel : (feed.rows.map (fun r => r ++ [structVal feed.header cols r])).map
      (fun r => (meta_name :: on_col).map (getCell (feed.header ++ [meta_name]) r)) =
      feed.rows.map (fun r =>
        structVal feed.header cols r :: on_col.map (getCell feed.header r)) := by
    rw [List.map_map]
    apply List.map_congr_left
    intro r hr
    show (meta_name :: on_col).map
        (getCell (feed.header ++ [meta_name]) (r ++ [structVal feed.header cols r])) =
      structVal feed.header cols r :: on_col.map (getCell feed.header r)
    simp only [List.map_cons]
    congr 1
    · exact getCell_append_single _ hfresh (hwf r hr)
    · apply List.map_congr_left
      intro c hc
      exact getCell_append_of_mem [meta_name] [structVal feed.header cols r]
        (hon c hc) (hwf r hr)
  show joinLeft feed
      ⟨on_col ++ [meta_name],
       (groupPairs (fun r => on_col.map (getCell (meta_name :: on_col) r))
          ((feed.rows.map (fun r => r ++ [structVal feed.header cols r])).map
            (fun r => (meta_name :: on_col).map (getCell (feed.header ++ [meta_name]) r)))).map
         (fun p => p.1 ++ [Value.list (p.2.map (fun r =>
            getCell (meta_name :: on_col) r meta_name))])⟩ on_col = _
  rw [hsel]
  have hkeysel : (feed.rows.map (fun r =>
      structVal feed.header cols r :: on_col.map (getCell feed.header r))).map
      (fun r => on_col.map (getCell (meta_name :: on_col) r)) =
      feed.rows.map (fun r => on_col.map (getCell feed.header r)) := by
    rw [List.map_map]
    apply List.map_congr_left
    intro r hr
    exact map_getCell_cons hond hmo _ _ (by simp)
  have hfst : (groupPairs (fun r => on_col.map (getCell (meta_name :: on_col) r))
      (feed.rows.map (fun r =>
        structVal feed.header cols r :: on_col.map (getCell feed.header r)))).map Prod.fst =
      firstSeen (feed.rows.map (fun r => on_col.map (getCell feed.header r))) := by
    rw [fst_groupPairs, hkeysel]
  have hfstnd : ((groupPairs (fun r => on_col.map (getCell (meta_name :: on_col) r))
      (feed.rows.map (fun r =>
        structVal feed.header cols r :: on_col.map (getCell feed.header r)))).map
        Prod.fst).Nodup := by
    rw [hfst]
    exact nodup_firstSeen _
  have hkeylen : ∀ p ∈ groupPairs (fun r => on_col.map (getCell (meta_name :: on_col) r))
      (feed.rows.map (fun r =>
        structVal feed.header cols r :: on_col.map (getCell feed.header r))),
      p.1.length = on_col.length := by
    intro p hp
    have h1 : p.1 ∈ firstSeen (feed.rows.map (fun r =>
        on_col.map (getCell feed.header r))) := by
      rw [← hfst]
      exact List.mem_map_of_mem Prod.fst hp
    rw [mem_firstSeen] at h1
    obtain ⟨q, hq, hqe⟩ := List.mem_map.mp h1
    rw [← hqe]
    simp
  unfold joinLeft
  have hextra : (on_col ++ [meta_name]).filter (fun c => decide (c ∉ on_col)) =
      [meta_name] := by
    rw [List.filter_append]
    have h1 : on_col.filter (fun c => decide (c ∉ on_col)) = [] := by
      apply List.filter_eq_nil_iff.mpr
      intro c hc hdec
      exact (of_decide_eq_true hdec) hc
    rw [h1]
    simp [hmo]
  simp only [hextra, List.map_cons, List.map_nil]
  rw [if_neg hfresh]
  refine congrArg (Dataset.mk (feed.header ++ [meta_name])) ?_
  rw [← flatMap_singleton_map (fun r =>
    r ++ [Value.list ((feed.rows.filter (fun q =>
        decide (on_col.map (getCell feed.header q) =
          on_col.map (getCell feed.header r)))).map
      (fun q => structVal feed.header cols q))]) feed.rows]
  apply flatMap_congr_mem
  intro r hr
  have hguard : ¬ Value.null ∈ on_col.map (getCell feed.header r) := hnull r hr
  rw [if_neg hguard]
  have hkeymem : on_col.map (getCell feed.header r) ∈
      (groupPairs (fun r => on_col.map (getCell (meta_name :: on_col) r))
        (feed.rows.map (fun r =>
          structVal feed.header cols r :: on_col.map (getCell feed.header r)))).map
        Prod.fst := by
    rw [hfst, mem_firstSeen]
    exact List.mem_map_of_mem _ hr
  have hms : ((groupPairs (fun r => on_col.map (getCell (meta_name :: on_col) r))
        (feed.rows.map (fun r =>
          structVal feed.header cols r :: on_col.map (getCell feed.header r)))).map
        (fun p => p.1 ++ [Value.list (p.2.map (fun x =>
          getCell (meta_name :: on_col) x meta_name))])).filter
        (fun m => decide (on_col.map (getCell (on_col ++ [meta_name]) m) =
          on_col.map (getCell feed.header r))) =
      [(fun p => p.1 ++ [Value.list (p.2.map (fun x =>
          getCell (meta_name :: on_col) x meta_name))])
        (on_col.map (getCell feed.header r),
         lookupGroup (groupPairs (fun r => on_col.map (getCell (meta_name :: on_col) r))
           (feed.rows.map (fun r =>
             structVal feed.header cols r :: on_col.map (getCell feed.header r))))
           (on_col.map (getCell feed.header r)))] := by
    rw [List.filter_map]
    have hcongr : (groupPairs (fun r => on_col.map (getCell (meta_name :: on_col) r))
        (feed.rows.map (fun r =>
          structVal feed.header cols r :: on_col.map (getCell feed.header r)))).filter
        ((fun m => decide (on_col.map (getCell (on_col ++ [meta_name]) m) =
          on_col.map (getCell feed.header r))) ∘
          (fun p => p.1 ++ [Value.list (p.2.map (fun x =>
            getCell (meta_name :: on_col) x meta_name))])) =
        (groupPairs (fun r => on_col.map (getCell (meta_name :: on_col) r))
          (feed.rows.map (fun r =>
            structVal feed.header cols r :: on_col.map (getCell feed.header r)))).filter
          (fun p => decide (p.1 = on_col.map (getCell feed.header r))) := by
      apply List.filter_congr
      intro p hp
      show decide (on_col.map (getCell (on_col ++ [meta_name])
          (p.1 ++ [Value.list (p.2.map (fun x =>
            getCell (meta_name :: on_col) x meta_name))])) =
          on_col.map (getCell feed.header r)) = decide (p.1 = on_col.map (getCell feed.header r))
      rw [map_getCell_append_self [meta_name] _ hond (hkeylen p hp)]
    rw [hcongr, filter_groupPairs_singleton _ _ hfstnd hkeymem]
    rfl
  rw [hms]
  show [(fun p => p.1 ++ [Value.list (p.2.map (fun x =>
      getCell (meta_name :: on_col) x meta_name))])
        (on_col.map (getCell feed.header r),
         lookupGroup (groupPairs (fun r => on_col.map (getCell (meta_name :: on_col) r))
           (feed.rows.map (fun r =>
             structVal feed.header cols r :: on_col.map (getCell feed.header r))))
           (on_col.map (getCell feed.header r)))].map
      (fun m => r ++ [getCell (on_col ++ [meta_name]) m meta_name]) = _
  simp only [List.map_cons, List.map_nil]
  have hlookup : lookupGroup (groupPairs (fun r =>
      on_col.map (getCell (meta_name :: on_col) r))
      (feed.rows.map (fun r =>
        structVal feed.header cols r :: on_col.map (getCell feed.header r))))
      (on_col.map (getCell feed.header r)) =
      (feed.rows.filter (fun q =>
        decide (on_col.map (getCell feed.header q) =
          on_col.map (getCell feed.header r)))).map
        (fun q => structVal feed.header cols q :: on_col.map (getCell feed.header q)) := by
    rw [lookupGroup_groupPairs, List.filter_map]
    refine congrArg _ ?_
    apply List.filter_congr
    intro q hq
    show decide ((fun x => on_col.map (getCell (meta_name :: on_col) x))
        (structVal feed.header cols q :: on_col.map (getCell feed.header q)) =
        on_col.map (getCell feed.header r)) =
      decide (on_col.map (getCell feed.header q) = on_col.map (getCell feed.header r))
    rw [show (fun x => on_col.map (getCell (meta_name :: on_col) x))
        (structVal feed.header cols q :: on_col.map (getCell feed.header q)) =
        on_col.map (getCell feed.header q) from
      map_getCell_cons hond hmo _ _ (by simp)]
  rw [hlookup]
  congr 1
  have hcell : getCell (on_col ++ [meta_name])
      (on_col.map (getCell feed.header r) ++
        [Value.list (((feed.rows.filter (fun q =>
          decide (on_col.map (getCell feed.header q) =
            on_col.map (getCell feed.header r)))).map
          (fun q => structVal feed.header cols q :: on_col.map (getCell feed.header q))).map
            (fun x => getCell (meta_name :: on_col) x meta_name))])
      meta_name =
      Value.list (((feed.rows.filter (fun q =>
        decide (on_col.map (getCell feed.header q) =
          on_col.map (getCell feed.header r)))).map
        (fun q => structVal feed.header cols q :: on_col.map (getCell feed.header q))).map
          (fun x => getCell (meta_name :: on_col) x meta_name)) :=
    getCell_append_single _ hmo (by simp)
  rw [hcell, List.map_map]
  refine congrArg (fun x => r ++ [Value.list x]) ?_
  apply List.map_congr_left
  intro q hq
  show getCell (meta_name :: on_col)
      (structVal feed.header cols q :: on_col.map (getCell feed.header q)) meta_name =
    structVal feed.header cols q
  simp [getCell, colIdx]

/-- C3 counterexample: passing a LIST of grouping columns to the class-based
pack-metadata-grouped operation raises a TypeError (pl.col rejects a list in
its variadic tail), so the operation does not produce the grouped metadata
dataset the claim promises for list arguments. -/
theorem pack_metadata_grouped_counterexample :
    (FeedTransformation.all_combinations_metadata
        ⟨⟨["id", "price"], [[Value.int 1, Value.int 10]]⟩, none⟩
        ["price"] (.list ["id"]) "metadata").err = some .typeError ∧
    ¬ (FeedTransformation.all_combinations_metadata
        ⟨⟨["id", "price"], [[Value.int 1, Value.int 10]]⟩, none⟩
        ["price"] (.list ["id"]) "metadata").err = none :=
  ⟨rfl, by decide⟩

/-- C3 (amended): on a fresh session, for a SINGLE STRING grouping column
present in the feed, a fresh metadata name, and no null grouping cells, the
class-based pack-metadata-grouped operation succeeds and returns the feed
extended with one new column whose value in every row is the list of the
packed records of all rows sharing that row's grouping-column value; the
row count is unchanged and the new name is tracked. -/
theorem pack_metadata_grouped_correct (ft : FeedTransformation)
    (cols : List String) (oc meta_name : String)
    (hwf : ft.feed.WF) (hcols : ∀ c ∈ cols, c ∈ ft.feed.header) (hnd : cols.Nodup)
    (hoc : oc ∈ ft.feed.header) (hfresh : ¬ meta_name ∈ ft.feed.header)
    (hcur : ft.current_metadata = none)
    (hnull0 : ∀ r ∈ ft.feed.rows, ¬ getCell ft.feed.header r oc = Value.null) :
    (ft.all_combinations_metadata cols (.str oc) meta_name).err = none ∧
    (ft.all_combinations_metadata cols (.str oc) meta_name).warned = false ∧
    (ft.all_combinations_metadata cols (.str oc) meta_name).state.current_metadata =
      some meta_name ∧
    (ft.all_combinations_metadata cols (.str oc) meta_name).state.feed.header =
      ft.feed.header ++ [meta_name] ∧
    (ft.all_combinations_metadata cols (.str oc) meta_name).state.feed.rows =
      ft.feed.rows.map (fun r =>
        r ++ [Value.list ((ft.feed.rows.filter (fun q =>
            decide ([oc].map (getCell ft.feed.header q) =
              [oc].map (getCell ft.feed.header r)))).map
          (fun q => structVal ft.feed.header cols q))]) ∧
    (ft.all_combinations_metadata cols (.str oc) meta_name).state.feed.rows.length =
      ft.feed.rows.length := by
  have hnull : ∀ r ∈ ft.feed.rows, ¬ Value.null ∈ [oc].map (getCell ft.feed.header r) := by
    intro r hr hmem
    exact hnull0 r hr (List.mem_singleton.mp hmem).symm
  rw [all_comb_success_spec ft cols oc meta_name hcols hnd hoc hcur,
    all_comb_join_spec ft.feed cols [oc] meta_name hwf
      (fun c hc => (List.mem_singleton.mp hc) ▸ hoc) (by simp) hfresh hnull]
  exact ⟨rfl, decide_eq_false hfresh, rfl, rfl, rfl, by simp⟩

theorem pack_metadata_grouped_correct_witness :
    (let ft : FeedTransformation :=
      ⟨⟨["id", "price"],
        [[Value.int 1, Value.int 10], [Value.int 2, Value.int 20],
         [Value.int 1, Value.int 30]]⟩, none⟩
     (ft.all_combinations_metadata ["price"] (.str "id") "metadata").err = none ∧
     (ft.all_combinations_metadata ["price"] (.str "id") "metadata").state.feed.header =
       ["id", "price", "metadata"] ∧
     (ft.all_combinations_metadata ["price"] (.str "id") "metadata").state.feed.rows =
       [[Value.int 1, Value.int 10,
         Value.list [Value.struct [("price", Value.int 10)],
                     Value.struct [("price", Value.int 30)]]],
        [Value.int 2, Value.int 20,
         Value.list [Value.struct [("price", Value.int 20)]]],
        [Value.int 1, Value.int 30,
         Value.list [Value.struct [("price", Value.int 10)],
                     Value.struct [("price", Value.int 30)]]]]) := by
  have h := pack_metadata_grouped_correct
    ⟨⟨["id", "price"],
      [[Value.int 1, Value.int 10], [Value.int 2, Value.int 20],
       [Value.int 1, Value.int 30]]⟩, none⟩
    ["price"] "id" "metadata"
    (by unfold Dataset.WF; decide) (by decide) (by decide) (by decide) (by decide)
    rfl (by decide)
  refine ⟨h.1, h.2.2.2.1, ?_⟩
  rw [h.2.2.2.2.1]
  decide

/-- Success-with-drop path of the class-based `all_combinations_metadata` on
a single string grouping column while a (truthy) previous metadata column
`m` is tracked: validation passes, the grouped metadata is joined on, and
the previous metadata column is dropped from the joined feed. -/
theorem all_comb_drop_spec (ft : FeedTransformation) (cols : List String)
    (oc meta_name m : String) (hcols : ∀ c ∈ cols, c ∈ ft.feed.header) (hnd : cols.Nodup)
    (hoc : oc ∈ ft.feed.header) (hcur : ft.current_metadata = some m) (hm0 : ¬ m = "")
    (hmj : m ∈ (joinLeft ft.feed
        ⟨[oc] ++ [meta_name],
         (groupPairs (fun r => [oc].map (getCell (meta_name :: [oc]) r))
            ((withColumnRows ft.feed meta_name (structVal ft.feed.header cols)).rows.map
              (fun r => (meta_name :: [oc]).map
                (getCell (withColumnRows ft.feed meta_name
                  (structVal ft.feed.header cols)).header r)))).map
           (fun p => p.1 ++ [Value.list (p.2.map (fun r =>
              getCell (meta_name :: [oc]) r meta_name))])⟩
        [oc]).header) :
    ft.all_combinations_metadata cols (.str oc) meta_name =
      ⟨⟨erasedDataset (joinLeft ft.feed
          ⟨[oc] ++ [meta_name],
           (groupPairs (fun r => [oc].map (getCell (meta_name :: [oc]) r))
              ((withColumnRows ft.feed meta_name (structVal ft.feed.header cols)).rows.map
                (fun r => (meta_name :: [oc]).map
                  (getCell (withColumnRows ft.feed meta_name
                    (structVal ft.feed.header cols)).header r)))).map
             (fun p => p.1 ++ [Value.list (p.2.map (fun r =>
                getCell (meta_name :: [oc]) r meta_name))])⟩
          [oc]) m,
        some meta_name⟩, none, decide (meta_name ∈ ft.feed.header)⟩ := by
  rw [all_comb_str_eq ft cols oc meta_name hcols hnd]
  unfold allCombStr
  rw [if_neg (not_not_intro
    ((header_withColumnRows ft.feed meta_name (structVal ft.feed.header cols) oc).mpr
      (Or.inl hoc)))]
  have htr : (if truthy ft.current_metadata then ft.current_metadata else none) = some m := by
    rw [hcur]
    unfold truthy
    rw [if_pos (by simpa using hm0)]
  simp only [htr]
  rw [dropColumn_ok _ m hmj]

theorem joined_header_spec (feed : Dataset) (oc meta_name : String)
    (rrows : List (List Value)) (hmoc : ¬ meta_name = oc) :
    (joinLeft feed ⟨[oc] ++ [meta_name], rrows⟩ [oc]).header =
      feed.header ++ [if meta_name ∈ feed.header then meta_name ++ "_right" else meta_name] := by
  show feed.header ++ (((([oc] ++ [meta_name]) : List String).filter
      (fun c => decide (c ∉ [oc]))).map
      (fun c => if c ∈ feed.header then c ++ "_right" else c)) = _
  have hfil : (([oc] ++ [meta_name]) : List String).filter (fun c => decide (c ∉ [oc])) =
      [meta_name] := by
    simp [hmoc]
  rw [hfil]
  rfl

/-- C9 (amended): at most one current metadata column is tracked per session.
Whenever `create_metadata` or `all_combinations_metadata` creates a new
metadata column while a (truthy) previous one `m` is tracked and present in
the feed, the call succeeds, the previous metadata column `m` is dropped
from the resulting feed, the new name becomes the tracked metadata column,
and a warning is emitted exactly when the new name already exists as a
column in the feed — not merely because a previous metadata column is
tracked. -/
theorem one_metadata_tracked_amended :
    (∀ (ft : FeedTransformation) (cols : List String) (meta_name m : String),
      (∀ c ∈ cols, c ∈ ft.feed.header) → cols.Nodup → ft.feed.header.Nodup →
      ft.current_metadata = some m → ¬ m = "" → m ∈ ft.feed.header → ¬ meta_name = m →
      (ft.create_metadata cols meta_name).err = none ∧
      (ft.create_metadata cols meta_name).warned = decide (meta_name ∈ ft.feed.header) ∧
      (ft.create_metadata cols meta_name).state.current_metadata = some meta_name ∧
      ¬ m ∈ (ft.create_metadata cols meta_name).state.feed.header ∧
      meta_name ∈ (ft.create_metadata cols meta_name).state.feed.header) ∧
    (∀ (ft : FeedTransformation) (cols : List String) (oc meta_name m : String),
      (∀ c ∈ cols, c ∈ ft.feed.header) → cols.Nodup → ft.feed.header.Nodup →
      oc ∈ ft.feed.header → ¬ meta_name = oc →
      ¬ (meta_name ++ "_right") ∈ ft.feed.header →
      ft.current_metadata = some m → ¬ m = "" → m ∈ ft.feed.header →
      (ft.all_combinations_metadata cols (.str oc) meta_name).err = none ∧
      (ft.all_combinations_metadata cols (.str oc) meta_name).warned =
        decide (meta_name ∈ ft.feed.header) ∧
      (ft.all_combinations_metadata cols (.str oc) meta_name).state.current_metadata =
        some meta_name ∧
      ¬ m ∈ (ft.all_combinations_metadata cols (.str oc) meta_name).state.feed.header) := by
  constructor
  · intro ft cols meta_name m hcols hnd hh hcur hm0 hmh hne
    have hmf : m ∈ (withColumnRows ft.feed meta_name (structVal ft.feed.header cols)).header :=
      (header_withColumnRows ft.feed meta_name (structVal ft.feed.header cols) m).mpr
        (Or.inl hmh)
    rw [create_metadata_drop_spec ft cols meta_name m hcols hnd hcur hm0 hmf]
    have hndW : (withColumnRows ft.feed meta_name (structVal ft.feed.header cols)).header.Nodup :=
      nodup_withColumnRows_header ft.feed meta_name (structVal ft.feed.header cols) hh
    refine ⟨rfl, rfl, rfl, ?_, ?_⟩
    · intro hmm
      exact ((mem_eraseIdx_colIdx hndW hmf m).mp hmm).2 rfl
    · exact (mem_eraseIdx_colIdx hndW hmf meta_name).mpr
        ⟨(header_withColumnRows ft.feed meta_name (structVal ft.feed.header cols)
            meta_name).mpr (Or.inr rfl), hne⟩
  · intro ft cols oc meta_name m hcols hnd hh hoc hmoc hsafe hcur hm0 hmh
    have hjh := joined_header_spec ft.feed oc meta_name
      ((groupPairs (fun r => [oc].map (getCell (meta_name :: [oc]) r))
          ((withColumnRows ft.feed meta_name (structVal ft.feed.header cols)).rows.map
            (fun r => (meta_name :: [oc]).map
              (getCell (withColumnRows ft.feed meta_name
                (structVal ft.feed.header cols)).header r)))).map
         (fun p => p.1 ++ [Value.list (p.2.map (fun r =>
            getCell (meta_name :: [oc]) r meta_name))]))
      hmoc
    have hmj : m ∈ (joinLeft ft.feed
        ⟨[oc] ++ [meta_name],
         (groupPairs (fun r => [oc].map (getCell (meta_name :: [oc]) r))
            ((withColumnRows ft.feed meta_name (structVal ft.feed.header cols)).rows.map
              (fun r => (meta_name :: [oc]).map
                (getCell (withColumnRows ft.feed meta_name
                  (structVal ft.feed.header cols)).header r)))).map
           (fun p => p.1 ++ [Value.list (p.2.map (fun r =>
              getCell (meta_name :: [oc]) r meta_name))])⟩
        [oc]).header := by
      rw [hjh]
      exact List.mem_append.mpr (Or.inl hmh)
    rw [all_comb_drop_spec ft cols oc meta_name m hcols hnd hoc hcur hm0 hmj]
    have hndJ : (joinLeft ft.feed
        ⟨[oc] ++ [meta_name],
         (groupPairs (fun r => [oc].map (getCell (meta_name :: [oc]) r))
            ((withColumnRows ft.feed meta_name (structVal ft.feed.header cols)).rows.map
              (fun r => (meta_name :: [oc]).map
                (getCell (withColumnRows ft.feed meta_name
                  (structVal ft.feed.header cols)).header r)))).map
           (fun p => p.1 ++ [Value.list (p.2.map (fun r =>
              getCell (meta_name :: [oc]) r meta_name))])⟩
        [oc]).header.Nodup := by
      rw [hjh]
      by_cases hcoll : meta_name ∈ ft.feed.header
      · rw [if_pos hcoll]
        refine List.nodup_append.mpr ⟨hh, List.nodup_singleton _, ?_⟩
        intro x hx hx2
        rw [List.mem_singleton] at hx2
        exact hsafe (hx2 ▸ hx)
      · rw [if_neg hcoll]
        refine List.nodup_append.mpr ⟨hh, List.nodup_singleton _, ?_⟩
        intro x hx hx2
        rw [List.mem_singleton] at hx2
        exact hcoll (hx2 ▸ hx)
    refine ⟨rfl, rfl, rfl, ?_⟩
    intro hmm
    exact ((mem_eraseIdx_colIdx hndJ hmj m).mp hmm).2 rfl

theorem one_metadata_tracked_amended_witness :
    ((FeedTransformation.create_metadata
        ⟨⟨["a", "m"], [[Value.int 1, Value.int 2]]⟩, some "m"⟩ ["a"] "m2").err = none ∧
     (FeedTransformation.create_metadata
        ⟨⟨["a", "m"], [[Value.int 1, Value.int 2]]⟩, some "m"⟩ ["a"] "m2").warned =
       decide ("m2" ∈ (["a", "m"] : List String)) ∧
     (FeedTransformation.create_metadata
        ⟨⟨["a", "m"], [[Value.int 1, Value.int 2]]⟩, some "m"⟩
        ["a"] "m2").state.current_metadata = some "m2" ∧
     ¬ "m" ∈ (FeedTransformation.create_metadata
        ⟨⟨["a", "m"], [[Value.int 1, Value.int 2]]⟩, some "m"⟩
        ["a"] "m2").state.feed.header ∧
     "m2" ∈ (FeedTransformation.create_metadata
        ⟨⟨["a", "m"], [[Value.int 1, Value.int 2]]⟩, some "m"⟩
        ["a"] "m2").state.feed.header) ∧
    ((FeedTransformation.all_combinations_metadata
        ⟨⟨["id", "m"], [[Value.int 1, Value.int 2]]⟩, some "m"⟩
        ["id"] (.str "id") "m2").err = none ∧
     (FeedTransformation.all_combinations_metadata
        ⟨⟨["id", "m"], [[Value.int 1, Value.int 2]]⟩, some "m"⟩
        ["id"] (.str "id") "m2").warned = decide ("m2" ∈ (["id", "m"] : List String)) ∧
     (FeedTransformation.all_combinations_metadata
        ⟨⟨["id", "m"], [[Value.int 1, Value.int 2]]⟩, some "m"⟩
        ["id"] (.str "id") "m2").state.current_metadata = some "m2" ∧
     ¬ "m" ∈ (FeedTransformation.all_combinations_metadata
        ⟨⟨["id", "m"], [[Value.int 1, Value.int 2]]⟩, some "m"⟩
        ["id"] (.str "id") "m2").state.feed.header) :=
  ⟨one_metadata_tracked_amended.1
      ⟨⟨["a", "m"], [[Value.int 1, Value.int 2]]⟩, some "m"⟩ ["a"] "m2" "m"
      (by decide) (by decide) (by decide) rfl (by decide) (by decide) (by decide),
   one_metadata_tracked_amended.2
      ⟨⟨["id", "m"], [[Value.int 1, Value.int 2]]⟩, some "m"⟩ ["id"] "id" "m2" "m"
      (by decide) (by decide) (by decide) (by decide) (by decide) (by decide)
      rfl (by decide) (by decide)⟩
